import Mathlib

/-!
Shallow embedding of the CppND-Garbage-Collector repository
(`src/gc_details.h`, `src/gc_iterator.h`).

Addresses (`T*` values) are modelled as `Int`, with `0` standing for
`nullptr`.  Since every tracked element type `T` and template size
parameter has its own static registry (`sRefContainer` is a static member
of the class template `Pointer<T, size>`), a machine instance below is
parameterised by the template `size` argument and describes all handles of
one instantiation.

`size_t` reference counts are modelled as `Nat`; the one place where
unsigned wrap-around is observable in a real execution — decrementing a
count that is already `0`, which the two assignment operators do without a
guard — is modelled explicitly by `decWrap`.  (Overflowing a count upward
would require `2^64` simultaneously live handles, which cannot occur in a
`2^64`-byte address space, so increments are modelled exactly.)
-/

/-! ### gc_details.h : PtrDetails -/

/-- One element of the garbage-collection information list
(`class PtrDetails`, gc_details.h).  Field names follow the source. -/
structure PtrDetails where
  ref_count : Nat
  mem_ptr : Int
  is_array : Bool
  array_size : Nat
  deriving Repr, DecidableEq

/-- The `PtrDetails(T* obj_ptr, size_t arr_size = 0)` constructor:
`is_array_ = (arr_size > 0)` and the count starts at `1`
(`ref_count_++` on the zero-initialised field). -/
def mkPtrDetails (obj_ptr : Int) (arr_size : Nat) : PtrDetails :=
  { ref_count := 1, mem_ptr := obj_ptr, is_array := arr_size != 0, array_size := arr_size }

/-! ### Pointer<T, size> : handle state and registry bookkeeping -/

/-- The per-handle state of `Pointer<T, size>`: `addr_`, `is_array_`,
`array_size_` (gc_iterator.h lines 179-181). -/
structure GCPointer where
  addr : Int
  is_array : Bool
  array_size : Nat
  deriving Repr, DecidableEq

/-- `size_t` decrement (`ref_count_--`): wraps around at zero. -/
def decWrap (c : Nat) : Nat :=
  if c = 0 then 2 ^ 64 - 1 else c - 1

/-- `find_ptr_info(ptr)`: linear scan of `sRefContainer` returning the
first record whose `mem_ptr_` equals the argument (end-of-list is
modelled as `none`). -/
def find_ptr_info (reg : List PtrDetails) (a : Int) : Option PtrDetails :=
  reg.find? (fun r => r.mem_ptr == a)

/-- Mutating through the iterator returned by `find_ptr_info`: apply `g`
to the reference count of the first record whose address is `a`. -/
def adjustFirst (reg : List PtrDetails) (a : Int) (g : Nat → Nat) : List PtrDetails :=
  match reg with
  | [] => []
  | r :: rs =>
      if r.mem_ptr == a then { r with ref_count := g r.ref_count } :: rs
      else r :: adjustFirst rs a g

/-- A record of a `delete` / `delete[]` performed by `collect()`.
`observed_count` is the reference count the sweep read just before
freeing (always zero: the sweep only frees on `ref_count_ == 0`), and
`as_array` tells whether the array form `delete[]` was used. -/
structure FreeEvent where
  addr : Int
  observed_count : Nat
  as_array : Bool
  deriving Repr, DecidableEq

/-- One `do { for (...) ... } while` execution of `Pointer::collect()`
(gc_iterator.h lines 376-412): scan from the start for the first record
with `ref_count_ == 0`; free its memory if non-null (recorded as a
`FreeEvent`), remove it from the list (`std::list::remove` erases every
record comparing equal, i.e. with the same `mem_ptr_`), and restart the
scan; stop when a full scan finds no zero-count record.  The loop removes
at least one record per iteration, so `reg.length` rounds of fuel always
suffice (fuel zero is only reached on the empty list, where the scan
finds nothing and the loop exits anyway). -/
def collectLoop (fuel : Nat) (reg : List PtrDetails) (freed : List FreeEvent)
    (memfreed : Bool) : List PtrDetails × List FreeEvent × Bool :=
  match fuel with
  | 0 => (reg, freed, memfreed)
  | fuel + 1 =>
      match reg.find? (fun r => r.ref_count == 0) with
      | none => (reg, freed, memfreed)
      | some r =>
          let freed' := if r.mem_ptr != 0
            then freed ++ [⟨r.mem_ptr, r.ref_count, r.is_array⟩] else freed
          let memfreed' := if r.mem_ptr != 0 then true else memfreed
          collectLoop fuel (reg.filter (fun q => q.mem_ptr != r.mem_ptr)) freed' memfreed'

/-- `Pointer::collect()`: returns the surviving registry, the list of
free events performed, and the `memfreed` flag that the function
returns. -/
def collect (reg : List PtrDetails) : List PtrDetails × List FreeEvent × Bool :=
  collectLoop reg.length reg [] false

/-- `Pointer::increment_or_add_to_ptr_list()` (gc_iterator.h lines
436-462), acting on the handle state `h`.  Besides the registry it
threads the ghost trace `registered` of every address ever inserted into
the registry (appended to exactly when `emplace_back` runs).  The
`assert` on matching array metadata is modelled as `none` (fatal
invariant breach). -/
def increment_or_add_to_ptr_list (h : GCPointer) (reg : List PtrDetails)
    (registered : List Int) : Option (List PtrDetails × List Int) :=
  if h.addr = 0 then some (reg, registered)
  else
    match find_ptr_info reg h.addr with
    | some r =>
        if r.is_array = h.is_array ∧ r.array_size = h.array_size then
          some (adjustFirst reg h.addr (fun c => c + 1), registered)
        else none
    | none => some (reg ++ [mkPtrDetails h.addr h.array_size], registered ++ [h.addr])

/-- `Pointer::increment_ptr_list()` (gc_iterator.h lines 487-502):
increments the record of `h.addr`; `assert(it_mem_ != end)` is modelled
as `none`.  Also the registry effect of the copy constructor
(gc_iterator.h lines 330-351), which runs the same find / assert /
increment sequence. -/
def increment_ptr_list (h : GCPointer) (reg : List PtrDetails) :
    Option (List PtrDetails) :=
  if h.addr = 0 then some reg
  else
    match find_ptr_info reg h.addr with
    | some _ => some (adjustFirst reg h.addr (fun c => c + 1))
    | none => none

/-- The decrement block shared by `operator=(T*)` (lines 418-424) and
`operator=(const Pointer&)` (lines 468-476): if the handle is bound, find
its record — `assert` (modelled as `none`) if missing — and decrement the
count unconditionally (a zero count wraps around, `decWrap`). -/
def assign_decrement (a : Int) (reg : List PtrDetails) : Option (List PtrDetails) :=
  if a = 0 then some reg
  else
    match find_ptr_info reg a with
    | some _ => some (adjustFirst reg a decWrap)
    | none => none

/-- The registry effect of `~Pointer()` before its final `collect()`
(gc_iterator.h lines 354-372): when bound, look the record up and
decrement only if it was found and its count is non-zero; when the record
is missing, silently do nothing (no assert here, unlike the assignment
operators).  When the handle is unbound (`addr_ == nullptr`) the source
never assigns the iterator `p` and then compares and conditionally
dereferences it — reading an uninitialised (value-initialised null) list
iterator; we model that path as the intended no-op on the registry. -/
def destructor_dec (a : Int) (reg : List PtrDetails) : List PtrDetails :=
  if a = 0 then reg
  else
    match find_ptr_info reg a with
    | some r => if r.ref_count ≠ 0 then adjustFirst reg a decWrap else reg
    | none => reg

/-- `Pointer::shutdown()` (gc_iterator.h lines 549-565): if the registry
is empty return immediately, otherwise force every record's count to zero
and run one `collect()`. -/
def shutdown (reg : List PtrDetails) : List PtrDetails × List FreeEvent × Bool :=
  if reg.length = 0 then (reg, [], false)
  else collect (reg.map (fun r => { r with ref_count := 0 }))

/-! ### gc_iterator.h : Iter<T> -/

/-- The exceptions the code throws (`std::out_of_range(msg)`). -/
inductive CppExc where
  | out_of_range (msg : String)
  deriving Repr, DecidableEq

/-- `Iter<T>` (gc_iterator.h lines 17-149): a raw position `ptr_` plus
the range `[begin_, end_)`; `length_` caches `end_ - begin_` at
construction time.  Field names follow the source. -/
structure Iter where
  ptr_ : Int
  end_ : Int
  begin_ : Int
  length_ : Int
  deriving Repr, DecidableEq

/-- The `Iter(const T* p, const T* first, const T* last)` constructor. -/
def Iter.mk' (p first last : Int) : Iter :=
  { ptr_ := p, end_ := last, begin_ := first, length_ := last - first }

/-- `Iter::operator*` (lines 53-60): throws `out_of_range` unless
`begin_ ≤ ptr_ < end_`; otherwise yields the referenced cell, modelled by
its address. -/
def Iter.deref (it : Iter) : Except CppExc Int :=
  if it.ptr_ ≥ it.end_ ∨ it.ptr_ < it.begin_ then
    .error (.out_of_range "Invalid access")
  else .ok it.ptr_

/-- Prefix `++` (lines 74-78): advances `ptr_` and returns `*this`. -/
def Iter.inc (it : Iter) : Iter :=
  { it with ptr_ := it.ptr_ + 1 }

/-- Prefix `--` (lines 81-85). -/
def Iter.decr (it : Iter) : Iter :=
  { it with ptr_ := it.ptr_ - 1 }

/-- `Iter::operator[]` (lines 90-97).  The source evaluates
`(i < 0) || (i >= (end_ - begin_))` and, on violation, evaluates the
expression statement `std::out_of_range("Invalid access");` — it
constructs the exception object but never throws it, so control always
falls through to `return ptr_[i]`, the cell at offset `i` from the
*current* position.  The model therefore never errors. -/
def Iter.index (it : Iter) (i : Nat) : Except CppExc Int :=
  .ok (it.ptr_ + i)

/-- `Iter::operator+(int n)` (lines 138-142): `ptr_ += n; return *this;`
— it mutates the receiver and returns it.  The first component is the
receiver's state after the call, the second the returned iterator. -/
def Iter.plusInt (it : Iter) (n : Int) : Iter × Iter :=
  let this' := { it with ptr_ := it.ptr_ + n }
  (this', this')

/-- `Iter::operator-(int n)` (lines 131-135): `ptr_ -= n; return *this;`. -/
def Iter.minusInt (it : Iter) (n : Int) : Iter × Iter :=
  let this' := { it with ptr_ := it.ptr_ - n }
  (this', this')

/-! ### Pointer<T, size> : element access and traversal -/

/-- `Pointer::operator[]` (gc_iterator.h lines 235-250): array-bound
handles are bounds-checked against `array_size_`; non-array handles
ignore the index and yield `*addr_`.  The referenced cell is modelled by
its address. -/
def GCPointer.index (h : GCPointer) (i : Nat) : Except CppExc Int :=
  if h.is_array then
    if i ≥ h.array_size then .error (.out_of_range "Invalid index")
    else .ok (h.addr + i)
  else .ok h.addr

/-- The range length used by `begin()` / `end()` (lines 259-286):
`array_size_` for arrays, `1` otherwise. -/
def GCPointer.lsize (h : GCPointer) : Nat :=
  if h.is_array then h.array_size else 1

/-- `Pointer::begin()` : `GCiterator(addr_, addr_, addr_ + lsize)`. -/
def GCPointer.beginIter (h : GCPointer) : Iter :=
  Iter.mk' h.addr h.addr (h.addr + h.lsize)

/-- `Pointer::end()` : `GCiterator(addr_ + lsize, addr_, addr_ + lsize)`. -/
def GCPointer.endIter (h : GCPointer) : Iter :=
  Iter.mk' (h.addr + h.lsize) h.addr (h.addr + h.lsize)

/-! ### The per-instantiation life-cycle machine

One machine instance corresponds to one class-template instantiation
`Pointer<T, size>` (whose static `sRefContainer` is shared by every
handle of that instantiation); `ts` below is the template `size`
argument.  `registered` is a ghost trace of every address ever inserted
into the registry and `freed` a ghost trace of every `delete` performed
by sweeps. -/

/-- The machine state: the live handles (in creation order), the
registry `sRefContainer`, and the two ghost traces. -/
structure GCState where
  handles : List GCPointer
  registry : List PtrDetails
  freed : List FreeEvent
  registered : List Int
  deriving Repr, DecidableEq

/-- The TrackedHandle operations of the public API.  Handles are
identified by their index in `GCState.handles`. -/
inductive Op where
  | construct (mem : Int)
  | defaultConstruct
  | copyConstruct (i : Nat)
  | assignRaw (i : Nat) (mem : Int)
  | assignPtr (i : Nat) (j : Nat)
  | destroy (i : Nat)
  deriving Repr, DecidableEq

/-- One operation of the machine.  `none` means the operation is not a
behaviour of the program from this state: either the handle index does
not name a live handle, or the source's `assert` fired (a fatal
invariant breach aborts the process).

* `construct mem` — `Pointer(T* mem)` (lines 304-327): the handle starts
  with `addr_ = mem`, `is_array_ = (size != 0)`, `array_size_ = size`,
  and registers through `increment_or_add_to_ptr_list` unless null.
* `defaultConstruct` — `Pointer()` (lines 203-206): the body constructs
  and immediately destroys a `Pointer(nullptr)` temporary instead of
  delegating, so the new handle keeps its default members
  (`addr_ = nullptr`, `is_array_ = false`, `array_size_ = size`) and the
  temporary's destructor runs one `collect()` (its null-bound decrement
  path reads an uninitialised iterator in the source; modelled as the
  intended no-op, see `destructor_dec`).
* `copyConstruct i` — the copy constructor (lines 330-351).
* `assignRaw i mem` — `operator=(T*)` (lines 415-434).
* `assignPtr i j` — `operator=(const Pointer&)` (lines 465-485).
* `destroy i` — `~Pointer()` (lines 354-372). -/
def step (ts : Nat) (s : GCState) : Op → Option GCState
  | .construct mem =>
      let h : GCPointer := ⟨mem, ts != 0, ts⟩
      match increment_or_add_to_ptr_list h s.registry s.registered with
      | some (reg', regd') =>
          some { s with handles := s.handles ++ [h], registry := reg', registered := regd' }
      | none => none
  | .defaultConstruct =>
      let res := collect s.registry
      some { s with handles := s.handles ++ [⟨0, false, ts⟩],
                    registry := res.1, freed := s.freed ++ res.2.1 }
  | .copyConstruct i =>
      match s.handles[i]? with
      | none => none
      | some src =>
          if src.addr = 0 then some { s with handles := s.handles ++ [src] }
          else
            match increment_ptr_list src s.registry with
            | some reg' => some { s with handles := s.handles ++ [src], registry := reg' }
            | none => none
  | .assignRaw i mem =>
      match s.handles[i]? with
      | none => none
      | some h =>
          match assign_decrement h.addr s.registry with
          | none => none
          | some reg1 =>
              let h' : GCPointer :=
                ⟨mem, if ts != 0 then true else h.is_array,
                      if ts != 0 then ts else h.array_size⟩
              match increment_or_add_to_ptr_list h' reg1 s.registered with
              | some (reg2, regd') =>
                  some { handles := s.handles.set i h', registry := reg2,
                         freed := s.freed, registered := regd' }
              | none => none
  | .assignPtr i j =>
      match s.handles[i]?, s.handles[j]? with
      | some h1, some h2 =>
          match assign_decrement h1.addr s.registry with
          | none => none
          | some reg1 =>
              match increment_ptr_list h2 reg1 with
              | some reg2 =>
                  some { s with handles := s.handles.set i h2, registry := reg2 }
              | none => none
      | _, _ => none
  | .destroy i =>
      match s.handles[i]? with
      | none => none
      | some h =>
          let res := collect (destructor_dec h.addr s.registry)
          some { s with handles := s.handles.eraseIdx i,
                        registry := res.1, freed := s.freed ++ res.2.1 }

/-- The API preconditions of spec section 6 that bear on registry state:
a raw address handed to a binding must come from a fresh dynamic
allocation, so it can never equal an address that a sweep has already
freed ("callers must never independently deallocate an address once it
has been bound", "two unrelated raw-address bindings must never target
the same address"). -/
def PreOk (s : GCState) : Op → Prop
  | .construct mem => mem = 0 ∨ mem ∉ s.freed.map FreeEvent.addr
  | .assignRaw _ mem => mem = 0 ∨ mem ∉ s.freed.map FreeEvent.addr
  | _ => True

/-- The empty start state: no handles, empty registry. -/
def initState : GCState := ⟨[], [], [], []⟩

/-- States reachable by finite sequences of API operations that respect
the preconditions. -/
inductive Reachable (ts : Nat) : GCState → Prop where
  | init : Reachable ts initState
  | step {s s' : GCState} {op : Op} :
      Reachable ts s → PreOk s op → step ts s op = some s' → Reachable ts s'

/-- The number of currently-live handles whose bound address is `a`. -/
def countH (hs : List GCPointer) (a : Int) : Nat :=
  hs.countP (fun h => h.addr == a)

/-- The complete free trace of a program run that ends now: the frees
performed by sweeps so far followed by those of the `atexit`-registered
`shutdown()`. -/
def finalFreed (s : GCState) : List FreeEvent :=
  s.freed ++ (shutdown s.registry).2.1

/-- The inductive invariant of the machine. -/
structure GCInv (s : GCState) : Prop where
  counts : ∀ r ∈ s.registry, r.ref_count = countH s.handles r.mem_ptr
  bound : ∀ h ∈ s.handles, h.addr ≠ 0 → h.addr ∈ s.registry.map PtrDetails.mem_ptr
  rnodup : (s.registry.map PtrDetails.mem_ptr).Nodup
  rnonnull : ∀ r ∈ s.registry, r.mem_ptr ≠ 0
  fzero : ∀ e ∈ s.freed, e.observed_count = 0
  fnodup : (s.freed.map FreeEvent.addr).Nodup
  fdisj : ∀ e ∈ s.freed, e.addr ∉ s.registry.map PtrDetails.mem_ptr
  fnonnull : ∀ e ∈ s.freed, e.addr ≠ 0
  rsub : ∀ r ∈ s.registry, r.mem_ptr ∈ s.registered
  fsub : ∀ e ∈ s.freed, e.addr ∈ s.registered
  regsplit : ∀ a ∈ s.registered,
    a ∈ s.registry.map PtrDetails.mem_ptr ∨ a ∈ s.freed.map FreeEvent.addr
  regnodup : s.registered.Nodup


/-- The free event `collect` records for a swept record. -/
def freeEventOf (r : PtrDetails) : FreeEvent :=
  ⟨r.mem_ptr, r.ref_count, r.is_array⟩

/-- The predicate selecting the records a `collect` call frees:
zero reference count and non-null memory pointer. -/
def sweepable (r : PtrDetails) : Bool :=
  r.ref_count == 0 && r.mem_ptr != 0

/-! ### Concrete states used in the verification below -/

/-- A state reached from `initState` by binding one fresh scalar
allocation at address `5` to a single handle. -/
def sW1 : GCState :=
  ⟨[⟨5, false, 0⟩], [⟨1, 5, false, 0⟩], [], [5]⟩

/-- A state with a handle bound to address `5` but no registry record
for it (obtainable only outside the documented binding discipline, e.g.
through the raw-address escape hatch). -/
def sC5 : GCState :=
  ⟨[⟨5, false, 0⟩], [], [], []⟩

/-! ### Helper lemmas -/

theorem adjustFirst_map_mem (reg : List PtrDetails) (a : Int) (g : Nat → Nat) :
    (adjustFirst reg a g).map PtrDetails.mem_ptr = reg.map PtrDetails.mem_ptr := by
  induction reg with
  | nil => rfl
  | cons r rs ih =>
      by_cases h : r.mem_ptr == a <;> simp [adjustFirst, h, ih]

theorem adjustFirst_map_meta (reg : List PtrDetails) (a : Int) (g : Nat → Nat) :
    (adjustFirst reg a g).map (fun r => (r.mem_ptr, r.is_array, r.array_size)) =
      reg.map (fun r => (r.mem_ptr, r.is_array, r.array_size)) := by
  induction reg with
  | nil => rfl
  | cons r rs ih =>
      by_cases h : r.mem_ptr == a <;> simp [adjustFirst, h, ih]

theorem mem_adjustFirst_of_ne {reg : List PtrDetails} {a : Int} {g : Nat → Nat}
    {q : PtrDetails} (hq : q ∈ reg) (hne : q.mem_ptr ≠ a) : q ∈ adjustFirst reg a g := by
  induction reg with
  | nil => simp at hq
  | cons r rs ih =>
      rw [List.mem_cons] at hq
      rcases hq with hq | hq
      · subst hq
        have hb : (q.mem_ptr == a) = false := by simp [hne]
        simp [adjustFirst, hb]
      · by_cases h : r.mem_ptr == a
        · simp [adjustFirst, h, hq]
        · simp only [adjustFirst, h, if_false]
          exact List.mem_cons_of_mem _ (ih hq)

theorem exists_of_mem_adjustFirst {reg : List PtrDetails} {a : Int} {g : Nat → Nat}
    {q : PtrDetails} (hq : q ∈ adjustFirst reg a g) :
    ∃ r ∈ reg, q.mem_ptr = r.mem_ptr ∧ q.is_array = r.is_array ∧
      q.array_size = r.array_size := by
  induction reg with
  | nil => simp [adjustFirst] at hq
  | cons r rs ih =>
      by_cases h : r.mem_ptr == a
      · simp only [adjustFirst, h, if_true] at hq
        rw [List.mem_cons] at hq
        rcases hq with hq | hq
        · exact ⟨r, List.mem_cons_self r rs, by simp [hq]⟩
        · exact ⟨q, List.mem_cons_of_mem _ hq, rfl, rfl, rfl⟩
      · simp only [adjustFirst, h, Bool.false_eq_true, if_false] at hq
        rw [List.mem_cons] at hq
        rcases hq with hq | hq
        · exact ⟨r, List.mem_cons_self r rs, by simp [hq]⟩
        · obtain ⟨r', hr', h1, h2, h3⟩ := ih hq
          exact ⟨r', List.mem_cons_of_mem _ hr', h1, h2, h3⟩

theorem adjustFirst_append {l₁ l₂ : List PtrDetails} {a : Int} {r : PtrDetails}
    (g : Nat → Nat) (h₁ : ∀ q ∈ l₁, q.mem_ptr ≠ a) (hr : r.mem_ptr = a) :
    adjustFirst (l₁ ++ r :: l₂) a g = l₁ ++ { r with ref_count := g r.ref_count } :: l₂ := by
  induction l₁ with
  | nil =>
      have hb : (r.mem_ptr == a) = true := by simp [hr]
      simp [adjustFirst, hb]
  | cons q l₁ ih =>
      have hq : (q.mem_ptr == a) = false := by
        simp [h₁ q (List.mem_cons_self q l₁)]
      simp only [List.cons_append, adjustFirst, hq, Bool.false_eq_true, if_false,
        List.cons.injEq, true_and]
      exact ih fun p hp => h₁ p (List.mem_cons_of_mem _ hp)

theorem countH_append (hs hs' : List GCPointer) (a : Int) :
    countH (hs ++ hs') a = countH hs a + countH hs' a :=
  List.countP_append ..

theorem countH_singleton (h : GCPointer) (a : Int) :
    countH [h] a = if h.addr = a then 1 else 0 := by
  by_cases hh : h.addr = a <;> simp [countH, List.countP_cons, hh]

theorem countH_set {hs : List GCPointer} {i : Nat} {h : GCPointer} (h' : GCPointer)
    (a : Int) (hi : hs[i]? = some h) :
    countH (hs.set i h') a + (if h.addr = a then 1 else 0) =
      countH hs a + (if h'.addr = a then 1 else 0) := by
  induction hs generalizing i with
  | nil => simp at hi
  | cons q hs ih =>
      cases i with
      | zero =>
          simp only [List.getElem?_cons_zero, Option.some.injEq] at hi
          subst hi
          simp only [List.set_cons_zero, countH, List.countP_cons]
          by_cases h1 : q.addr = a <;> by_cases h2 : h'.addr = a <;>
            simp [h1, h2, Nat.add_comm]
      | succ i =>
          simp only [List.getElem?_cons_succ] at hi
          have := ih hi
          simp only [List.set_cons_succ, countH, List.countP_cons] at *
          omega

theorem countH_eraseIdx {hs : List GCPointer} {i : Nat} {h : GCPointer}
    (a : Int) (hi : hs[i]? = some h) :
    countH (hs.eraseIdx i) a + (if h.addr = a then 1 else 0) = countH hs a := by
  induction hs generalizing i with
  | nil => simp at hi
  | cons q hs ih =>
      cases i with
      | zero =>
          simp only [List.getElem?_cons_zero, Option.some.injEq] at hi
          subst hi
          simp only [List.eraseIdx_cons_zero, countH, List.countP_cons]
          by_cases h1 : q.addr = a <;> simp [h1]
      | succ i =>
          simp only [List.getElem?_cons_succ] at hi
          have := ih hi
          simp only [List.eraseIdx_cons_succ, countH, List.countP_cons] at *
          omega


theorem collectLoop_spec (fuel : Nat) :
    ∀ (reg : List PtrDetails) (f : List FreeEvent) (b : Bool),
      reg.length ≤ fuel → (reg.map PtrDetails.mem_ptr).Nodup →
      collectLoop fuel reg f b =
        (reg.filter (fun r => r.ref_count != 0),
         f ++ (reg.filter sweepable).map freeEventOf,
         b || !(reg.filter sweepable).isEmpty) := by
  induction fuel with
  | zero =>
      intro reg f b hlen hnd
      have hreg : reg = [] := List.eq_nil_of_length_eq_zero (Nat.le_zero.mp hlen)
      subst hreg
      simp [collectLoop]
  | succ fuel ih =>
      intro reg f b hlen hnd
      cases hfind : reg.find? (fun r => r.ref_count == 0) with
      | none =>
          have hall := List.find?_eq_none.mp hfind
          have h1 : reg.filter (fun r => r.ref_count != 0) = reg := by
            rw [List.filter_eq_self]
            intro r hr
            simpa using hall r hr
          have h2 : reg.filter sweepable = [] := by
            rw [List.filter_eq_nil_iff]
            intro r hr
            have := hall r hr
            simp only [sweepable]
            simp only [Bool.not_eq_true] at this
            simp [this]
          simp [collectLoop, hfind, h1, h2]
      | some r =>
          obtain ⟨hpr, l₁, l₂, hreg, hl₁⟩ := List.find?_eq_some.mp hfind
          subst hreg
          have hr0 : r.ref_count = 0 := by simpa using hpr
          have hl₁0 : ∀ q ∈ l₁, q.ref_count ≠ 0 := by
            intro q hq
            have := hl₁ q hq
            simpa using this
          -- nodup consequences
          have hndm : (l₁.map PtrDetails.mem_ptr ++
              r.mem_ptr :: l₂.map PtrDetails.mem_ptr).Nodup := by
            simpa using hnd
          have hnot1 : r.mem_ptr ∉ l₁.map PtrDetails.mem_ptr := by
            intro hmem
            rcases List.nodup_append.mp hndm with ⟨-, -, hdisj⟩
            exact hdisj hmem (List.mem_cons_self ..)
          have hnot2 : r.mem_ptr ∉ l₂.map PtrDetails.mem_ptr := by
            rcases List.nodup_append.mp hndm with ⟨-, hcons, -⟩
            exact (List.nodup_cons.mp hcons).1
          have hne1 : ∀ q ∈ l₁, q.mem_ptr ≠ r.mem_ptr := by
            intro q hq he
            exact hnot1 (he ▸ List.mem_map_of_mem _ hq)
          have hne2 : ∀ q ∈ l₂, q.mem_ptr ≠ r.mem_ptr := by
            intro q hq he
            exact hnot2 (he ▸ List.mem_map_of_mem _ hq)
          -- the removal step: std::list::remove drops exactly r
          have hrem : (l₁ ++ r :: l₂).filter (fun q => q.mem_ptr != r.mem_ptr) =
              l₁ ++ l₂ := by
            rw [List.filter_append, List.filter_cons]
            have : (r.mem_ptr != r.mem_ptr) = false := by simp
            rw [this]
            simp only [Bool.false_eq_true, if_false]
            rw [List.filter_eq_self.mpr fun q hq => by simpa using hne1 q hq,
                List.filter_eq_self.mpr fun q hq => by simpa using hne2 q hq]
          -- invariants for the recursive call
          have hlen' : (l₁ ++ l₂).length ≤ fuel := by
            simp only [List.length_append, List.length_cons] at hlen ⊢
            omega
          have hsub : List.Sublist (l₁ ++ l₂) (l₁ ++ r :: l₂) :=
            (List.sublist_cons_self r l₂).append_left l₁
          have hnd' : ((l₁ ++ l₂).map PtrDetails.mem_ptr).Nodup :=
            (hsub.map PtrDetails.mem_ptr).nodup hnd
          have hstep := ih (l₁ ++ l₂)
            (if r.mem_ptr != 0 then f ++ [⟨r.mem_ptr, r.ref_count, r.is_array⟩] else f)
            (if r.mem_ptr != 0 then true else b) hlen' hnd'
          -- evaluate one loop iteration
          simp only [collectLoop, hfind, hrem] at hstep ⊢
          rw [hstep]
          -- compare the three components
          have hfl₁ : l₁.filter sweepable = [] := by
            rw [List.filter_eq_nil_iff]
            intro q hq
            have := hl₁0 q hq
            simp [sweepable, this]
          have hfr : (fun r => r.ref_count != 0) r = false := by simp [hr0]
          refine Prod.ext ?_ (Prod.ext ?_ ?_)
          · simp only [List.filter_append, List.filter_cons, hfr, Bool.false_eq_true,
              if_false]
          · simp only [List.filter_append, List.filter_cons, hfl₁, List.nil_append,
              List.map_append, sweepable, hr0]
            by_cases hm : r.mem_ptr = 0
            · simp [hm, freeEventOf]
            · have : (r.mem_ptr != 0) = true := by simp [hm]
              simp [this, freeEventOf, hr0]
          · simp only [List.filter_append, List.filter_cons, hfl₁, List.nil_append,
              sweepable, hr0]
            by_cases hm : r.mem_ptr = 0
            · simp [hm]
            · have : (r.mem_ptr != 0) = true := by simp [hm]
              simp [this]

/-- `collect` under a well-formed registry (distinct record addresses):
it keeps exactly the records with non-zero count, frees exactly the
zero-count records with non-null memory (in registry order, recording
the observed zero count and the array flag), and reports whether the
freed list is non-empty. -/
theorem collect_spec (reg : List PtrDetails)
    (hnd : (reg.map PtrDetails.mem_ptr).Nodup) :
    collect reg =
      (reg.filter (fun r => r.ref_count != 0),
       (reg.filter sweepable).map freeEventOf,
       !(reg.filter sweepable).isEmpty) := by
  have := collectLoop_spec reg.length reg [] false (Nat.le_refl _) hnd
  simpa [collect] using this

theorem find_ptr_info_some {reg : List PtrDetails} {a : Int} {r : PtrDetails}
    (h : find_ptr_info reg a = some r) : r ∈ reg ∧ r.mem_ptr = a :=
  ⟨List.mem_of_find?_eq_some h, by simpa using List.find?_some h⟩

theorem find_ptr_info_none {reg : List PtrDetails} {a : Int}
    (h : find_ptr_info reg a = none) : ∀ q ∈ reg, q.mem_ptr ≠ a := by
  intro q hq
  have := List.find?_eq_none.mp h q hq
  simpa using this

theorem find_ptr_info_isSome {reg : List PtrDetails} {a : Int}
    (h : a ∈ reg.map PtrDetails.mem_ptr) : ∃ r, find_ptr_info reg a = some r := by
  rcases List.mem_map.mp h with ⟨r, hr, hmem⟩
  have : (find_ptr_info reg a).isSome := by
    rw [find_ptr_info, List.find?_isSome]
    exact ⟨r, hr, by simp [hmem]⟩
  exact Option.isSome_iff_exists.mp this

theorem countH_pos_of_mem {hs : List GCPointer} {h : GCPointer} (hh : h ∈ hs) :
    0 < countH hs h.addr := by
  rw [countH, List.countP_pos_iff]
  exact ⟨h, hh, by simp⟩

/-- Decomposition of a successful `find_ptr_info` under a duplicate-free
registry: the registry splits as `l₁ ++ r :: l₂` where no other record
(on either side) carries the address `a`. -/
theorem find_ptr_info_decomp {reg : List PtrDetails} {a : Int} {r : PtrDetails}
    (hnd : (reg.map PtrDetails.mem_ptr).Nodup)
    (h : find_ptr_info reg a = some r) :
    r.mem_ptr = a ∧ ∃ l₁ l₂, reg = l₁ ++ r :: l₂ ∧
      (∀ q ∈ l₁, q.mem_ptr ≠ a) ∧ (∀ q ∈ l₂, q.mem_ptr ≠ a) := by
  obtain ⟨hpr, l₁, l₂, hreg, hl₁⟩ := List.find?_eq_some.mp h
  have hra : r.mem_ptr = a := by simpa using hpr
  subst hreg
  refine ⟨hra, l₁, l₂, rfl, fun q hq => by simpa using hl₁ q hq, ?_⟩
  intro q hq he
  have hndm : (l₁.map PtrDetails.mem_ptr ++
      r.mem_ptr :: l₂.map PtrDetails.mem_ptr).Nodup := by simpa using hnd
  rcases List.nodup_append.mp hndm with ⟨-, hcons, -⟩
  exact (List.nodup_cons.mp hcons).1 (hra ▸ he ▸ List.mem_map_of_mem _ hq)

/-- Replacing the handle multiset while keeping every per-address handle
count (at non-null addresses) preserves the invariant; the registry and
traces are untouched. -/
theorem inv_handles {hs hs' : List GCPointer} {reg : List PtrDetails}
    {fr : List FreeEvent} {regd : List Int}
    (hI : GCInv ⟨hs, reg, fr, regd⟩)
    (hc : ∀ b : Int, b ≠ 0 → countH hs' b = countH hs b)
    (hhs : ∀ h2 ∈ hs', h2.addr ≠ 0 → ∃ h3 ∈ hs, h3.addr = h2.addr) :
    GCInv ⟨hs', reg, fr, regd⟩ := by
  refine ⟨?_, ?_, hI.rnodup, hI.rnonnull, hI.fzero, hI.fnodup, hI.fdisj,
    hI.fnonnull, hI.rsub, hI.fsub, hI.regsplit, hI.regnodup⟩
  · intro r hr
    rw [hc r.mem_ptr (hI.rnonnull r hr)]
    exact hI.counts r hr
  · intro h2 hh2 hne
    obtain ⟨h3, hh3, he⟩ := hhs h2 hh2 hne
    exact he ▸ hI.bound h3 hh3 (by simp [he, hne])

/-- Decrementing the record of a bound address `a` while detaching one
handle bound to `a` preserves the invariant. -/
theorem inv_dec {hs hs' : List GCPointer} {reg : List PtrDetails}
    {fr : List FreeEvent} {regd : List Int} {a : Int} {r : PtrDetails}
    (hI : GCInv ⟨hs, reg, fr, regd⟩)
    (ha : a ≠ 0) (hfind : find_ptr_info reg a = some r)
    (hc : ∀ b : Int, b ≠ 0 → countH hs b = countH hs' b + (if a = b then 1 else 0))
    (hhs : ∀ h2 ∈ hs', h2.addr ≠ 0 → ∃ h3 ∈ hs, h3.addr = h2.addr) :
    GCInv ⟨hs', adjustFirst reg a decWrap, fr, regd⟩ := by
  have hcounts : ∀ q ∈ reg, q.ref_count = countH hs q.mem_ptr := hI.counts
  have hbound : ∀ h2 ∈ hs, h2.addr ≠ 0 → h2.addr ∈ reg.map PtrDetails.mem_ptr := hI.bound
  have hrnodup : (reg.map PtrDetails.mem_ptr).Nodup := hI.rnodup
  have hrnonnull : ∀ q ∈ reg, q.mem_ptr ≠ 0 := hI.rnonnull
  have hfdisj : ∀ e ∈ fr, e.addr ∉ reg.map PtrDetails.mem_ptr := hI.fdisj
  have hrsub : ∀ q ∈ reg, q.mem_ptr ∈ regd := hI.rsub
  have hregsplit : ∀ b ∈ regd,
      b ∈ reg.map PtrDetails.mem_ptr ∨ b ∈ fr.map FreeEvent.addr := hI.regsplit
  obtain ⟨hra, l₁, l₂, hreg, hl₁, hl₂⟩ := find_ptr_info_decomp hrnodup hfind
  have hadj : adjustFirst reg a decWrap =
      l₁ ++ { r with ref_count := decWrap r.ref_count } :: l₂ := by
    rw [hreg]; exact adjustFirst_append decWrap hl₁ hra
  have hmapmem := adjustFirst_map_mem reg a decWrap
  have c1 : ∀ q ∈ adjustFirst reg a decWrap, q.ref_count = countH hs' q.mem_ptr := by
    intro q hq
    rw [hadj] at hq
    rcases List.mem_append.mp hq with hq | hq
    · have hq' : q ∈ reg := hreg ▸ List.mem_append_left _ hq
      have hqa : q.mem_ptr ≠ a := hl₁ q hq
      have hcq := hc q.mem_ptr (hrnonnull q hq')
      rw [if_neg (fun he => hqa he.symm)] at hcq
      rw [← hcounts q hq'] at hcq
      omega
    · rcases List.mem_cons.mp hq with hq | hq
      · have hr' : r ∈ reg := hreg ▸ List.mem_append_right _ (List.mem_cons_self ..)
        have hcnt := hcounts r hr'
        have hca := hc a ha
        rw [if_pos rfl] at hca
        subst hq
        simp only [hra]
        rw [decWrap]
        have hpos : r.ref_count = countH hs' a + 1 := by rw [hcnt, hra]; exact hca
        simp [hpos]
      · have hq' : q ∈ reg := hreg ▸ List.mem_append_right _ (List.mem_cons_of_mem _ hq)
        have hqa : q.mem_ptr ≠ a := hl₂ q hq
        have hcq := hc q.mem_ptr (hrnonnull q hq')
        rw [if_neg (fun he => hqa he.symm)] at hcq
        rw [← hcounts q hq'] at hcq
        omega
  have c2 : ∀ h2 ∈ hs', h2.addr ≠ 0 →
      h2.addr ∈ (adjustFirst reg a decWrap).map PtrDetails.mem_ptr := by
    intro h2 hh2 hne
    obtain ⟨h3, hh3, he⟩ := hhs h2 hh2 hne
    rw [hmapmem]
    exact he ▸ hbound h3 hh3 (by simp [he, hne])
  have c3 : ∀ q ∈ adjustFirst reg a decWrap, q.mem_ptr ≠ 0 := by
    intro q hq
    obtain ⟨p, hp, h1, -, -⟩ := exists_of_mem_adjustFirst hq
    exact h1 ▸ hrnonnull p hp
  have c4 : ∀ q ∈ adjustFirst reg a decWrap, q.mem_ptr ∈ regd := by
    intro q hq
    obtain ⟨p, hp, h1, -, -⟩ := exists_of_mem_adjustFirst hq
    exact h1 ▸ hrsub p hp
  exact ⟨c1, c2, hmapmem ▸ hrnodup, c3, hI.fzero, hI.fnodup,
    fun e he => hmapmem ▸ hfdisj e he, hI.fnonnull, c4, hI.fsub,
    fun b hb => (hregsplit b hb).imp (fun h => hmapmem ▸ h) id, hI.regnodup⟩

/-- Incrementing the record of address `a` while attaching one more
handle bound to `a` preserves the invariant. -/
theorem inv_inc {hs hs' : List GCPointer} {reg : List PtrDetails}
    {fr : List FreeEvent} {regd : List Int} {a : Int} {r : PtrDetails}
    (hI : GCInv ⟨hs, reg, fr, regd⟩)
    (ha : a ≠ 0) (hfind : find_ptr_info reg a = some r)
    (hc : ∀ b : Int, b ≠ 0 → countH hs' b = countH hs b + (if a = b then 1 else 0))
    (hhs : ∀ h2 ∈ hs', h2.addr ≠ 0 → h2.addr = a ∨ ∃ h3 ∈ hs, h3.addr = h2.addr) :
    GCInv ⟨hs', adjustFirst reg a (fun c => c + 1), fr, regd⟩ := by
  have hcounts : ∀ q ∈ reg, q.ref_count = countH hs q.mem_ptr := hI.counts
  have hbound : ∀ h2 ∈ hs, h2.addr ≠ 0 → h2.addr ∈ reg.map PtrDetails.mem_ptr := hI.bound
  have hrnodup : (reg.map PtrDetails.mem_ptr).Nodup := hI.rnodup
  have hrnonnull : ∀ q ∈ reg, q.mem_ptr ≠ 0 := hI.rnonnull
  have hfdisj : ∀ e ∈ fr, e.addr ∉ reg.map PtrDetails.mem_ptr := hI.fdisj
  have hrsub : ∀ q ∈ reg, q.mem_ptr ∈ regd := hI.rsub
  have hregsplit : ∀ b ∈ regd,
      b ∈ reg.map PtrDetails.mem_ptr ∨ b ∈ fr.map FreeEvent.addr := hI.regsplit
  obtain ⟨hra, l₁, l₂, hreg, hl₁, hl₂⟩ := find_ptr_info_decomp hrnodup hfind
  have hadj : adjustFirst reg a (fun c => c + 1) =
      l₁ ++ { r with ref_count := r.ref_count + 1 } :: l₂ := by
    rw [hreg]; exact adjustFirst_append _ hl₁ hra
  have hmapmem := adjustFirst_map_mem reg a (fun c => c + 1)
  have hamem : a ∈ reg.map PtrDetails.mem_ptr :=
    hra ▸ List.mem_map_of_mem _ (find_ptr_info_some hfind).1
  have c1 : ∀ q ∈ adjustFirst reg a (fun c => c + 1),
      q.ref_count = countH hs' q.mem_ptr := by
    intro q hq
    rw [hadj] at hq
    rcases List.mem_append.mp hq with hq | hq
    · have hq' : q ∈ reg := hreg ▸ List.mem_append_left _ hq
      have hqa : q.mem_ptr ≠ a := hl₁ q hq
      have hcq := hc q.mem_ptr (hrnonnull q hq')
      rw [if_neg (fun he => hqa he.symm)] at hcq
      rw [hcq, hcounts q hq']
      omega
    · rcases List.mem_cons.mp hq with hq | hq
      · have hr' : r ∈ reg := hreg ▸ List.mem_append_right _ (List.mem_cons_self ..)
        have hcnt := hcounts r hr'
        have hca := hc a ha
        rw [if_pos rfl] at hca
        subst hq
        simp only [hra]
        rw [hca, ← hra, ← hcnt]
      · have hq' : q ∈ reg := hreg ▸ List.mem_append_right _ (List.mem_cons_of_mem _ hq)
        have hqa : q.mem_ptr ≠ a := hl₂ q hq
        have hcq := hc q.mem_ptr (hrnonnull q hq')
        rw [if_neg (fun he => hqa he.symm)] at hcq
        rw [hcq, hcounts q hq']
        omega
  have c2 : ∀ h2 ∈ hs', h2.addr ≠ 0 →
      h2.addr ∈ (adjustFirst reg a (fun c => c + 1)).map PtrDetails.mem_ptr := by
    intro h2 hh2 hne
    rw [hmapmem]
    rcases hhs h2 hh2 hne with he | ⟨h3, hh3, he⟩
    · exact he ▸ hamem
    · exact he ▸ hbound h3 hh3 (by simp [he, hne])
  have c3 : ∀ q ∈ adjustFirst reg a (fun c => c + 1), q.mem_ptr ≠ 0 := by
    intro q hq
    obtain ⟨p, hp, h1, -, -⟩ := exists_of_mem_adjustFirst hq
    exact h1 ▸ hrnonnull p hp
  have c4 : ∀ q ∈ adjustFirst reg a (fun c => c + 1), q.mem_ptr ∈ regd := by
    intro q hq
    obtain ⟨p, hp, h1, -, -⟩ := exists_of_mem_adjustFirst hq
    exact h1 ▸ hrsub p hp
  exact ⟨c1, c2, hmapmem ▸ hrnodup, c3, hI.fzero, hI.fnodup,
    fun e he => hmapmem ▸ hfdisj e he, hI.fnonnull, c4, hI.fsub,
    fun b hb => (hregsplit b hb).imp (fun h => hmapmem ▸ h) id, hI.regnodup⟩

/-- Inserting a fresh record (`emplace_back`, count 1) for a previously
unregistered, never-freed address `a`, while attaching one handle bound
to `a`, preserves the invariant. -/
theorem inv_insert {hs hs' : List GCPointer} {reg : List PtrDetails}
    {fr : List FreeEvent} {regd : List Int} {a : Int} {asize : Nat}
    (hI : GCInv ⟨hs, reg, fr, regd⟩)
    (ha : a ≠ 0) (hfind : find_ptr_info reg a = none)
    (hfr : a ∉ fr.map FreeEvent.addr)
    (hc : ∀ b : Int, b ≠ 0 → countH hs' b = countH hs b + (if a = b then 1 else 0))
    (hhs : ∀ h2 ∈ hs', h2.addr ≠ 0 → h2.addr = a ∨ ∃ h3 ∈ hs, h3.addr = h2.addr) :
    GCInv ⟨hs', reg ++ [mkPtrDetails a asize], fr, regd ++ [a]⟩ := by
  have hcounts : ∀ q ∈ reg, q.ref_count = countH hs q.mem_ptr := hI.counts
  have hbound : ∀ h2 ∈ hs, h2.addr ≠ 0 → h2.addr ∈ reg.map PtrDetails.mem_ptr := hI.bound
  have hrnodup : (reg.map PtrDetails.mem_ptr).Nodup := hI.rnodup
  have hrnonnull : ∀ q ∈ reg, q.mem_ptr ≠ 0 := hI.rnonnull
  have hfdisj : ∀ e ∈ fr, e.addr ∉ reg.map PtrDetails.mem_ptr := hI.fdisj
  have hrsub : ∀ q ∈ reg, q.mem_ptr ∈ regd := hI.rsub
  have hfsub : ∀ e ∈ fr, e.addr ∈ regd := hI.fsub
  have hregsplit : ∀ b ∈ regd,
      b ∈ reg.map PtrDetails.mem_ptr ∨ b ∈ fr.map FreeEvent.addr := hI.regsplit
  have hregnodup : regd.Nodup := hI.regnodup
  have hnone : ∀ q ∈ reg, q.mem_ptr ≠ a := find_ptr_info_none hfind
  have hanotin : a ∉ reg.map PtrDetails.mem_ptr := by
    intro hmem
    rcases List.mem_map.mp hmem with ⟨q, hq, he⟩
    exact hnone q hq he
  have hcount0 : countH hs a = 0 := by
    by_contra hne
    have hpos : 0 < countH hs a := Nat.pos_of_ne_zero hne
    rw [countH, List.countP_pos_iff] at hpos
    obtain ⟨h2, hh2, hpa⟩ := hpos
    have ha2 : h2.addr = a := by simpa using hpa
    exact hanotin (ha2 ▸ hbound h2 hh2 (by simp [ha2, ha]))
  have hmapnew : (reg ++ [mkPtrDetails a asize]).map PtrDetails.mem_ptr =
      reg.map PtrDetails.mem_ptr ++ [a] := by
    simp [mkPtrDetails]
  have c1 : ∀ q ∈ reg ++ [mkPtrDetails a asize],
      q.ref_count = countH hs' q.mem_ptr := by
    intro q hq
    rcases List.mem_append.mp hq with hq | hq
    · have hqa : q.mem_ptr ≠ a := hnone q hq
      have hcq := hc q.mem_ptr (hrnonnull q hq)
      rw [if_neg (fun he => hqa he.symm)] at hcq
      rw [hcq, hcounts q hq]
      omega
    · rw [List.mem_singleton.mp hq]
      have hca := hc a ha
      rw [if_pos rfl] at hca
      simp [mkPtrDetails, hca, hcount0]
  have c2 : ∀ h2 ∈ hs', h2.addr ≠ 0 →
      h2.addr ∈ (reg ++ [mkPtrDetails a asize]).map PtrDetails.mem_ptr := by
    intro h2 hh2 hne
    rw [hmapnew]
    rcases hhs h2 hh2 hne with he | ⟨h3, hh3, he⟩
    · rw [he]
      exact List.mem_append_right _ (List.mem_singleton_self a)
    · exact List.mem_append_left _ (he ▸ hbound h3 hh3 (by simp [he, hne]))
  have c3 : ((reg ++ [mkPtrDetails a asize]).map PtrDetails.mem_ptr).Nodup := by
    rw [hmapnew]
    refine hrnodup.append (List.nodup_singleton a) ?_
    intro x hx hmem
    rw [List.mem_singleton.mp hmem] at hx
    exact hanotin hx
  have c4 : ∀ q ∈ reg ++ [mkPtrDetails a asize], q.mem_ptr ≠ 0 := by
    intro q hq
    rcases List.mem_append.mp hq with hq | hq
    · exact hrnonnull q hq
    · rw [List.mem_singleton.mp hq]; simpa [mkPtrDetails] using ha
  have c5 : ∀ e ∈ fr, e.addr ∉ (reg ++ [mkPtrDetails a asize]).map PtrDetails.mem_ptr := by
    intro e he hmem
    rw [hmapnew] at hmem
    rcases List.mem_append.mp hmem with hmem | hmem
    · exact hfdisj e he hmem
    · exact hfr (List.mem_singleton.mp hmem ▸ List.mem_map_of_mem _ he)
  have c6 : ∀ q ∈ reg ++ [mkPtrDetails a asize], q.mem_ptr ∈ regd ++ [a] := by
    intro q hq
    rcases List.mem_append.mp hq with hq | hq
    · exact List.mem_append_left _ (hrsub q hq)
    · rw [List.mem_singleton.mp hq]
      exact List.mem_append_right _ (by simp [mkPtrDetails])
  have c7 : ∀ b ∈ regd ++ [a],
      b ∈ (reg ++ [mkPtrDetails a asize]).map PtrDetails.mem_ptr ∨
        b ∈ fr.map FreeEvent.addr := by
    intro b hb
    rw [hmapnew]
    rcases List.mem_append.mp hb with hb | hb
    · exact (hregsplit b hb).imp (List.mem_append_left _) id
    · exact Or.inl (List.mem_append_right _ hb)
  have c8 : (regd ++ [a]).Nodup := by
    refine hregnodup.append (List.nodup_singleton a) ?_
    intro x hx hmem
    rw [List.mem_singleton.mp hmem] at hx
    rcases hregsplit a hx with h | h
    · exact hanotin h
    · exact hfr h
  exact ⟨c1, c2, c3, c4, hI.fzero, hI.fnodup, c5, hI.fnonnull, c6,
    fun e he => List.mem_append_left _ (hfsub e he), c7, c8⟩

/-- Running a full sweep (`collect()`) preserves the invariant: only
zero-count records — records no live handle is bound to — are freed and
removed, and their free events extend the trace. -/
theorem inv_collect {hs : List GCPointer} {reg : List PtrDetails}
    {fr : List FreeEvent} {regd : List Int}
    (hI : GCInv ⟨hs, reg, fr, regd⟩) :
    GCInv ⟨hs, (collect reg).1, fr ++ (collect reg).2.1, regd⟩ := by
  have hcounts : ∀ q ∈ reg, q.ref_count = countH hs q.mem_ptr := hI.counts
  have hbound : ∀ h2 ∈ hs, h2.addr ≠ 0 → h2.addr ∈ reg.map PtrDetails.mem_ptr := hI.bound
  have hrnodup : (reg.map PtrDetails.mem_ptr).Nodup := hI.rnodup
  have hrnonnull : ∀ q ∈ reg, q.mem_ptr ≠ 0 := hI.rnonnull
  have hfzero : ∀ e ∈ fr, e.observed_count = 0 := hI.fzero
  have hfnodup : (fr.map FreeEvent.addr).Nodup := hI.fnodup
  have hfdisj : ∀ e ∈ fr, e.addr ∉ reg.map PtrDetails.mem_ptr := hI.fdisj
  have hfnonnull : ∀ e ∈ fr, e.addr ≠ 0 := hI.fnonnull
  have hrsub : ∀ q ∈ reg, q.mem_ptr ∈ regd := hI.rsub
  have hfsub : ∀ e ∈ fr, e.addr ∈ regd := hI.fsub
  have hregsplit : ∀ b ∈ regd,
      b ∈ reg.map PtrDetails.mem_ptr ∨ b ∈ fr.map FreeEvent.addr := hI.regsplit
  have hspec := collect_spec reg hrnodup
  have h1 : (collect reg).1 = reg.filter (fun r => r.ref_count != 0) := by
    rw [hspec]
  have h2 : (collect reg).2.1 = (reg.filter sweepable).map freeEventOf := by
    rw [hspec]
  have hmapnew : ((reg.filter sweepable).map freeEventOf).map FreeEvent.addr =
      (reg.filter sweepable).map PtrDetails.mem_ptr := by
    rw [List.map_map]
    exact List.map_congr_left fun q _ => rfl
  have hsurvmap : List.Sublist
      ((reg.filter (fun r => r.ref_count != 0)).map PtrDetails.mem_ptr)
      (reg.map PtrDetails.mem_ptr) := (List.filter_sublist reg).map _
  have hsweepmap : List.Sublist
      ((reg.filter sweepable).map PtrDetails.mem_ptr)
      (reg.map PtrDetails.mem_ptr) := (List.filter_sublist reg).map _
  rw [h1, h2]
  have c1 : ∀ q ∈ reg.filter (fun r => r.ref_count != 0),
      q.ref_count = countH hs q.mem_ptr :=
    fun q hq => hcounts q (List.mem_of_mem_filter hq)
  have c2 : ∀ h2 ∈ hs, h2.addr ≠ 0 →
      h2.addr ∈ (reg.filter (fun r => r.ref_count != 0)).map PtrDetails.mem_ptr := by
    intro h2 hh2 hne
    rcases List.mem_map.mp (hbound h2 hh2 hne) with ⟨q, hq, he⟩
    have hcnt : q.ref_count = countH hs q.mem_ptr := hcounts q hq
    have hpos : 0 < countH hs h2.addr := countH_pos_of_mem hh2
    have hq0 : (fun r => r.ref_count != 0) q = true := by
      simp only [bne_iff_ne, ne_eq]
      rw [hcnt, he]
      omega
    exact he ▸ List.mem_map_of_mem _ (List.mem_filter.mpr ⟨hq, hq0⟩)
  have c3 : ((reg.filter (fun r => r.ref_count != 0)).map PtrDetails.mem_ptr).Nodup :=
    hsurvmap.nodup hrnodup
  have c4 : ∀ q ∈ reg.filter (fun r => r.ref_count != 0), q.mem_ptr ≠ 0 :=
    fun q hq => hrnonnull q (List.mem_of_mem_filter hq)
  have c5 : ∀ e ∈ fr ++ (reg.filter sweepable).map freeEventOf,
      e.observed_count = 0 := by
    intro e he
    rcases List.mem_append.mp he with he | he
    · exact hfzero e he
    · rcases List.mem_map.mp he with ⟨q, hq, hqe⟩
      have := (List.mem_filter.mp hq).2
      rw [sweepable, Bool.and_eq_true] at this
      rw [← hqe]
      simpa [freeEventOf] using this.1
  have hfrdisj : ∀ x ∈ fr.map FreeEvent.addr, x ∉ reg.map PtrDetails.mem_ptr := by
    intro x hx
    rcases List.mem_map.mp hx with ⟨e, he, hee⟩
    exact hee ▸ hfdisj e he
  have c6 : ((fr ++ (reg.filter sweepable).map freeEventOf).map FreeEvent.addr).Nodup := by
    rw [List.map_append, hmapnew]
    refine hfnodup.append (hsweepmap.nodup hrnodup) ?_
    intro x hx hmem
    exact hfrdisj x hx (hsweepmap.subset hmem)
  have c7 : ∀ e ∈ fr ++ (reg.filter sweepable).map freeEventOf,
      e.addr ∉ (reg.filter (fun r => r.ref_count != 0)).map PtrDetails.mem_ptr := by
    intro e he hmem
    rcases List.mem_append.mp he with he | he
    · exact hfdisj e he (hsurvmap.subset hmem)
    · rcases List.mem_map.mp he with ⟨q, hq, hqe⟩
      rcases List.mem_map.mp hmem with ⟨p, hp, hpe⟩
      have hqreg : q ∈ reg := List.mem_of_mem_filter hq
      have hpreg : p ∈ reg := List.mem_of_mem_filter hp
      have hqp : p = q := by
        refine List.inj_on_of_nodup_map hrnodup hpreg hqreg ?_
        rw [hpe, ← hqe]
        simp [freeEventOf]
      have hq0 := (List.mem_filter.mp hq).2
      have hp0 := (List.mem_filter.mp hp).2
      rw [sweepable, Bool.and_eq_true] at hq0
      rw [hqp] at hp0
      simp only [bne_iff_ne, ne_eq] at hp0
      simp only [beq_iff_eq] at hq0
      exact hp0 hq0.1
  have c8 : ∀ e ∈ fr ++ (reg.filter sweepable).map freeEventOf, e.addr ≠ 0 := by
    intro e he
    rcases List.mem_append.mp he with he | he
    · exact hfnonnull e he
    · rcases List.mem_map.mp he with ⟨q, hq, hqe⟩
      have := (List.mem_filter.mp hq).2
      rw [sweepable, Bool.and_eq_true] at this
      rw [← hqe]
      simpa [freeEventOf] using this.2
  have c9 : ∀ q ∈ reg.filter (fun r => r.ref_count != 0), q.mem_ptr ∈ regd :=
    fun q hq => hrsub q (List.mem_of_mem_filter hq)
  have c10 : ∀ e ∈ fr ++ (reg.filter sweepable).map freeEventOf, e.addr ∈ regd := by
    intro e he
    rcases List.mem_append.mp he with he | he
    · exact hfsub e he
    · rcases List.mem_map.mp he with ⟨q, hq, hqe⟩
      rw [← hqe]
      exact hrsub q (List.mem_of_mem_filter hq)
  have c11 : ∀ b ∈ regd,
      b ∈ (reg.filter (fun r => r.ref_count != 0)).map PtrDetails.mem_ptr ∨
        b ∈ (fr ++ (reg.filter sweepable).map freeEventOf).map FreeEvent.addr := by
    intro b hb
    rw [List.map_append, hmapnew]
    rcases hregsplit b hb with h | h
    · rcases List.mem_map.mp h with ⟨q, hq, he⟩
      by_cases h0 : q.ref_count = 0
      · right
        refine List.mem_append_right _ ?_
        have hsw : sweepable q = true := by
          rw [sweepable, Bool.and_eq_true]
          exact ⟨by simp [h0], by simpa using hrnonnull q hq⟩
        exact he ▸ List.mem_map_of_mem _ (List.mem_filter.mpr ⟨hq, hsw⟩)
      · left
        have hne : (fun r => r.ref_count != 0) q = true := by simpa using h0
        exact he ▸ List.mem_map_of_mem _ (List.mem_filter.mpr ⟨hq, hne⟩)
    · exact Or.inr (List.mem_append_left _ h)
  exact ⟨c1, c2, c3, c4, c5, c6, c7, c8, c9, c10, c11, hI.regnodup⟩

theorem assign_dec_inv {a : Int} {reg reg₁ : List PtrDetails}
    (hrun : assign_decrement a reg = some reg₁) :
    (a = 0 ∧ reg₁ = reg) ∨
    (a ≠ 0 ∧ (∃ r, find_ptr_info reg a = some r) ∧
      reg₁ = adjustFirst reg a decWrap) := by
  by_cases h0 : a = 0
  · left
    refine ⟨h0, ?_⟩
    simp only [assign_decrement, h0, if_pos, Option.some.injEq] at hrun
    exact hrun.symm
  · right
    refine ⟨h0, ?_⟩
    cases hfind : find_ptr_info reg a with
    | none => simp [assign_decrement, h0, hfind] at hrun
    | some r =>
        simp only [assign_decrement, h0, if_false, hfind, Option.some.injEq] at hrun
        exact ⟨⟨r, rfl⟩, hrun.symm⟩

theorem inc_ptr_inv {h : GCPointer} {reg reg' : List PtrDetails}
    (hrun : increment_ptr_list h reg = some reg') :
    (h.addr = 0 ∧ reg' = reg) ∨
    (h.addr ≠ 0 ∧ (∃ r, find_ptr_info reg h.addr = some r) ∧
      reg' = adjustFirst reg h.addr (fun c => c + 1)) := by
  by_cases h0 : h.addr = 0
  · left
    refine ⟨h0, ?_⟩
    simp only [increment_ptr_list, h0, if_pos, Option.some.injEq] at hrun
    exact hrun.symm
  · right
    refine ⟨h0, ?_⟩
    cases hfind : find_ptr_info reg h.addr with
    | none => simp [increment_ptr_list, h0, hfind] at hrun
    | some r =>
        simp only [increment_ptr_list, h0, if_false, hfind, Option.some.injEq] at hrun
        exact ⟨⟨r, rfl⟩, hrun.symm⟩

theorem inc_or_add_inv {h : GCPointer} {reg : List PtrDetails} {regd : List Int}
    {reg' : List PtrDetails} {regd' : List Int}
    (hrun : increment_or_add_to_ptr_list h reg regd = some (reg', regd')) :
    (h.addr = 0 ∧ reg' = reg ∧ regd' = regd) ∨
    (h.addr ≠ 0 ∧ (∃ r, find_ptr_info reg h.addr = some r ∧
        r.is_array = h.is_array ∧ r.array_size = h.array_size) ∧
      reg' = adjustFirst reg h.addr (fun c => c + 1) ∧ regd' = regd) ∨
    (h.addr ≠ 0 ∧ find_ptr_info reg h.addr = none ∧
      reg' = reg ++ [mkPtrDetails h.addr h.array_size] ∧
      regd' = regd ++ [h.addr]) := by
  by_cases h0 : h.addr = 0
  · left
    simp only [increment_or_add_to_ptr_list, h0, if_pos, Option.some.injEq,
      Prod.mk.injEq] at hrun
    exact ⟨h0, hrun.1.symm, hrun.2.symm⟩
  · cases hfind : find_ptr_info reg h.addr with
    | none =>
        right; right
        simp only [increment_or_add_to_ptr_list, h0, if_false, hfind,
          Option.some.injEq, Prod.mk.injEq] at hrun
        exact ⟨h0, rfl, hrun.1.symm, hrun.2.symm⟩
    | some r =>
        right; left
        by_cases hmeta : r.is_array = h.is_array ∧ r.array_size = h.array_size
        · simp only [increment_or_add_to_ptr_list, h0, if_false, hfind, hmeta,
            and_self, if_true, Option.some.injEq, Prod.mk.injEq] at hrun
          exact ⟨h0, ⟨r, rfl, hmeta.1, hmeta.2⟩, hrun.1.symm, hrun.2.symm⟩
        · simp [increment_or_add_to_ptr_list, h0, hfind, hmeta] at hrun

/-- The registry effect of `~Pointer()` preserves the invariant, with the
destroyed handle removed from the live-handle list. -/
theorem inv_destructor_dec {hs : List GCPointer} {reg : List PtrDetails}
    {fr : List FreeEvent} {regd : List Int} {i : Nat} {h : GCPointer}
    (hI : GCInv ⟨hs, reg, fr, regd⟩) (hi : hs[i]? = some h) :
    GCInv ⟨hs.eraseIdx i, destructor_dec h.addr reg, fr, regd⟩ := by
  have hcE : ∀ b : Int,
      countH (hs.eraseIdx i) b + (if h.addr = b then 1 else 0) = countH hs b :=
    fun b => countH_eraseIdx b hi
  have hhsE : ∀ h2 ∈ hs.eraseIdx i, h2.addr ≠ 0 → ∃ h3 ∈ hs, h3.addr = h2.addr :=
    fun h2 hh2 _ => ⟨h2, List.mem_of_mem_eraseIdx hh2, rfl⟩
  by_cases h0 : h.addr = 0
  · rw [destructor_dec, if_pos h0]
    refine inv_handles hI (fun b hb => ?_) hhsE
    have hce := hcE b
    rw [h0, if_neg (fun he => hb he.symm)] at hce
    omega
  · have hmem : h ∈ hs := List.getElem?_mem hi
    have hbound : ∀ h2 ∈ hs, h2.addr ≠ 0 →
        h2.addr ∈ reg.map PtrDetails.mem_ptr := hI.bound
    have hcounts : ∀ q ∈ reg, q.ref_count = countH hs q.mem_ptr := hI.counts
    obtain ⟨r, hfind⟩ := find_ptr_info_isSome (hbound h hmem h0)
    have hr := find_ptr_info_some hfind
    have hcnt : r.ref_count ≠ 0 := by
      rw [hcounts r hr.1, hr.2]
      have := countH_pos_of_mem hmem
      omega
    have hdd : destructor_dec h.addr reg = adjustFirst reg h.addr decWrap := by
      rw [destructor_dec, if_neg h0, hfind]
      exact if_pos hcnt
    rw [hdd]
    exact inv_dec hI h0 hfind (fun b _ => (hcE b).symm) hhsE

/-- One successful API operation preserves the invariant. -/
theorem inv_step {ts : Nat} {s s' : GCState} {op : Op}
    (hI : GCInv s) (hpre : PreOk s op) (hstep : step ts s op = some s') :
    GCInv s' := by
  obtain ⟨hs, reg, fr, regd⟩ := s
  cases op with
  | construct mem =>
      simp only [step] at hstep
      cases hrun : increment_or_add_to_ptr_list ⟨mem, ts != 0, ts⟩ reg regd with
      | none => rw [hrun] at hstep; exact absurd hstep (by simp)
      | some p =>
          obtain ⟨reg', regd'⟩ := p
          rw [hrun] at hstep
          simp only [Option.some.injEq] at hstep
          subst hstep
          have hcadd : ∀ b : Int, countH (hs ++ [(⟨mem, ts != 0, ts⟩ : GCPointer)]) b =
              countH hs b + (if mem = b then 1 else 0) := by
            intro b
            rw [countH_append, countH_singleton]
          have hhsadd : ∀ h2 ∈ hs ++ [(⟨mem, ts != 0, ts⟩ : GCPointer)], h2.addr ≠ 0 →
              h2.addr = mem ∨ ∃ h3 ∈ hs, h3.addr = h2.addr := by
            intro h2 hh2 _
            rcases List.mem_append.mp hh2 with hh2 | hh2
            · exact Or.inr ⟨h2, hh2, rfl⟩
            · rw [List.mem_singleton.mp hh2]
              exact Or.inl rfl
          rcases inc_or_add_inv hrun with ⟨h0, hr1, hr2⟩ | ⟨h0, ⟨r, hfind, -, -⟩, hr1, hr2⟩ |
            ⟨h0, hfind, hr1, hr2⟩
          · subst hr1; subst hr2
            refine inv_handles hI (fun b hb => ?_) ?_
            · rw [hcadd b]
              simp only at h0
              rw [h0, if_neg (fun he => hb he.symm)]
              omega
            · intro h2 hh2 hne
              rcases hhsadd h2 hh2 hne with he | he
              · simp only at h0
                exact absurd (he.trans h0) hne
              · exact he
          · subst hr1; subst hr2
            exact inv_inc hI h0 hfind (fun b _ => hcadd b) hhsadd
          · subst hr1; subst hr2
            refine inv_insert hI h0 hfind ?_ (fun b _ => hcadd b) hhsadd
            simp only at h0
            rcases hpre with hp | hp
            · exact absurd hp h0
            · exact hp
  | defaultConstruct =>
      simp only [step, Option.some.injEq] at hstep
      subst hstep
      refine inv_collect (inv_handles hI (fun b hb => ?_) ?_)
      · rw [countH_append, countH_singleton]
        simp only
        rw [if_neg (fun he => hb he.symm)]
        omega
      · intro h2 hh2 hne
        rcases List.mem_append.mp hh2 with hh2 | hh2
        · exact ⟨h2, hh2, rfl⟩
        · rw [List.mem_singleton.mp hh2] at hne
          exact absurd rfl hne
  | copyConstruct i =>
      simp only [step] at hstep
      cases hi : hs[i]? with
      | none => rw [hi] at hstep; exact absurd hstep (by simp)
      | some src =>
          simp only [hi] at hstep
          have hcadd : ∀ b : Int, countH (hs ++ [src]) b =
              countH hs b + (if src.addr = b then 1 else 0) := by
            intro b
            rw [countH_append, countH_singleton]
          have hhsadd : ∀ h2 ∈ hs ++ [src], h2.addr ≠ 0 →
              h2.addr = src.addr ∨ ∃ h3 ∈ hs, h3.addr = h2.addr := by
            intro h2 hh2 _
            rcases List.mem_append.mp hh2 with hh2 | hh2
            · exact Or.inr ⟨h2, hh2, rfl⟩
            · rw [List.mem_singleton.mp hh2]
              exact Or.inl rfl
          by_cases h0 : src.addr = 0
          · rw [if_pos h0] at hstep
            simp only [Option.some.injEq] at hstep
            subst hstep
            refine inv_handles hI (fun b hb => ?_) ?_
            · rw [hcadd b, h0, if_neg (fun he => hb he.symm)]
              omega
            · intro h2 hh2 hne
              rcases hhsadd h2 hh2 hne with he | he
              · exact absurd (he.trans h0) hne
              · exact he
          · rw [if_neg h0] at hstep
            cases hrun : increment_ptr_list src reg with
            | none => rw [hrun] at hstep; exact absurd hstep (by simp)
            | some reg' =>
                rw [hrun] at hstep
                simp only [Option.some.injEq] at hstep
                subst hstep
                rcases inc_ptr_inv hrun with ⟨he, -⟩ | ⟨-, ⟨r, hfind⟩, hr1⟩
                · exact absurd he h0
                · subst hr1
                  exact inv_inc hI h0 hfind (fun b _ => hcadd b) hhsadd
  | assignRaw i mem =>
      simp only [step] at hstep
      cases hi : hs[i]? with
      | none => rw [hi] at hstep; exact absurd hstep (by simp)
      | some h =>
          simp only [hi] at hstep
          cases hrun1 : assign_decrement h.addr reg with
          | none => rw [hrun1] at hstep; exact absurd hstep (by simp)
          | some reg1 =>
              simp only [hrun1] at hstep
              cases hrun2 : increment_or_add_to_ptr_list
                  ⟨mem, if ts != 0 then true else h.is_array,
                    if ts != 0 then ts else h.array_size⟩ reg1 regd with
              | none => rw [hrun2] at hstep; exact absurd hstep (by simp)
              | some p =>
                  obtain ⟨reg2, regd'⟩ := p
                  rw [hrun2] at hstep
                  simp only [Option.some.injEq] at hstep
                  subst hstep
                  -- the intermediate state: handle i detached, record decremented
                  have hilt : i < hs.length :=
                    (List.getElem?_eq_some_iff.mp hi).1
                  have hmidI : GCInv ⟨hs.set i ⟨0, h.is_array, h.array_size⟩,
                      reg1, fr, regd⟩ := by
                    have hcS : ∀ b : Int,
                        countH (hs.set i ⟨0, h.is_array, h.array_size⟩) b +
                          (if h.addr = b then 1 else 0) =
                        countH hs b + (if (0 : Int) = b then 1 else 0) :=
                      fun b => countH_set _ b hi
                    have hhsS : ∀ h2 ∈ hs.set i ⟨0, h.is_array, h.array_size⟩,
                        h2.addr ≠ 0 → ∃ h3 ∈ hs, h3.addr = h2.addr := by
                      intro h2 hh2 hne
                      rcases List.mem_or_eq_of_mem_set hh2 with hh2 | hh2
                      · exact ⟨h2, hh2, rfl⟩
                      · rw [hh2] at hne
                        exact absurd rfl hne
                    rcases assign_dec_inv hrun1 with ⟨h0, hr1⟩ | ⟨h0, ⟨r, hfind⟩, hr1⟩
                    · subst hr1
                      refine inv_handles hI (fun b hb => ?_) hhsS
                      have hce := hcS b
                      rw [h0] at hce
                      omega
                    · subst hr1
                      refine inv_dec hI h0 hfind (fun b hb => ?_) hhsS
                      have hce := hcS b
                      rw [if_neg (show ¬(0 : Int) = b from fun he => hb he.symm)] at hce
                      omega
                  -- the rebinding step on top of the intermediate state
                  have hmid : hs.set i ⟨0, h.is_array, h.array_size⟩ = hs.set i
                      ⟨0, h.is_array, h.array_size⟩ := rfl
                  have hmidget : (hs.set i ⟨0, h.is_array, h.array_size⟩)[i]? =
                      some ⟨0, h.is_array, h.array_size⟩ :=
                    List.getElem?_set_self (by simpa using hilt)
                  have hsetset : (hs.set i ⟨0, h.is_array, h.array_size⟩).set i
                      ⟨mem, if ts != 0 then true else h.is_array,
                        if ts != 0 then ts else h.array_size⟩ =
                      hs.set i ⟨mem, if ts != 0 then true else h.is_array,
                        if ts != 0 then ts else h.array_size⟩ :=
                    List.set_set ..
                  have hcS2 : ∀ b : Int, b ≠ 0 →
                      countH (hs.set i ⟨mem, if ts != 0 then true else h.is_array,
                        if ts != 0 then ts else h.array_size⟩) b =
                      countH (hs.set i ⟨0, h.is_array, h.array_size⟩) b +
                        (if mem = b then 1 else 0) := by
                    intro b hb
                    have hce := countH_set
                      ⟨mem, if ts != 0 then true else h.is_array,
                        if ts != 0 then ts else h.array_size⟩ b hmidget
                    rw [hsetset] at hce
                    simp only at hce
                    rw [if_neg (show ¬(0 : Int) = b from fun he => hb he.symm)] at hce
                    omega
                  have hhsS2 : ∀ h2 ∈ hs.set i ⟨mem, if ts != 0 then true else h.is_array,
                      if ts != 0 then ts else h.array_size⟩, h2.addr ≠ 0 →
                      h2.addr = mem ∨ ∃ h3 ∈ hs.set i ⟨0, h.is_array, h.array_size⟩,
                        h3.addr = h2.addr := by
                    intro h2 hh2 _
                    rw [← hsetset] at hh2
                    rcases List.mem_or_eq_of_mem_set hh2 with hh2 | hh2
                    · exact Or.inr ⟨h2, hh2, rfl⟩
                    · rw [hh2]
                      exact Or.inl rfl
                  rcases inc_or_add_inv hrun2 with ⟨h0, hr1, hr2⟩ |
                    ⟨h0, ⟨r, hfind, -, -⟩, hr1, hr2⟩ | ⟨h0, hfind, hr1, hr2⟩
                  · subst hr1; subst hr2
                    simp only at h0
                    refine inv_handles hmidI (fun b hb => ?_) ?_
                    · rw [hcS2 b hb, h0, if_neg (fun he => hb he.symm)]
                      omega
                    · intro h2 hh2 hne
                      rcases hhsS2 h2 hh2 hne with he | he
                      · exact absurd (he.trans h0) hne
                      · exact he
                  · subst hr1; subst hr2
                    exact inv_inc hmidI h0 hfind (fun b hb => hcS2 b hb) hhsS2
                  · subst hr1; subst hr2
                    refine inv_insert hmidI h0 hfind ?_ (fun b hb => hcS2 b hb) hhsS2
                    simp only at h0
                    rcases hpre with hp | hp
                    · exact absurd hp h0
                    · exact hp
  | assignPtr i j =>
      simp only [step] at hstep
      cases hi : hs[i]? with
      | none => rw [hi] at hstep; exact absurd hstep (by simp)
      | some h1 =>
          cases hj : hs[j]? with
          | none => rw [hi, hj] at hstep; exact absurd hstep (by simp)
          | some h2 =>
              simp only [hi, hj] at hstep
              cases hrun1 : assign_decrement h1.addr reg with
              | none => rw [hrun1] at hstep; exact absurd hstep (by simp)
              | some reg1 =>
                  simp only [hrun1] at hstep
                  cases hrun2 : increment_ptr_list h2 reg1 with
                  | none => rw [hrun2] at hstep; exact absurd hstep (by simp)
                  | some reg2 =>
                      rw [hrun2] at hstep
                      simp only [Option.some.injEq] at hstep
                      subst hstep
                      have hilt : i < hs.length :=
                        (List.getElem?_eq_some_iff.mp hi).1
                      have hmidI : GCInv ⟨hs.set i ⟨0, h1.is_array, h1.array_size⟩,
                          reg1, fr, regd⟩ := by
                        have hcS : ∀ b : Int,
                            countH (hs.set i ⟨0, h1.is_array, h1.array_size⟩) b +
                              (if h1.addr = b then 1 else 0) =
                            countH hs b + (if (0 : Int) = b then 1 else 0) :=
                          fun b => countH_set _ b hi
                        have hhsS : ∀ hx ∈ hs.set i ⟨0, h1.is_array, h1.array_size⟩,
                            hx.addr ≠ 0 → ∃ h3 ∈ hs, h3.addr = hx.addr := by
                          intro hx hhx hne
                          rcases List.mem_or_eq_of_mem_set hhx with hhx | hhx
                          · exact ⟨hx, hhx, rfl⟩
                          · rw [hhx] at hne
                            exact absurd rfl hne
                        rcases assign_dec_inv hrun1 with ⟨h0, hr1⟩ | ⟨h0, ⟨r, hfind⟩, hr1⟩
                        · subst hr1
                          refine inv_handles hI (fun b hb => ?_) hhsS
                          have hce := hcS b
                          rw [h0] at hce
                          omega
                        · subst hr1
                          refine inv_dec hI h0 hfind (fun b hb => ?_) hhsS
                          have hce := hcS b
                          rw [if_neg (show ¬(0 : Int) = b from fun he => hb he.symm)] at hce
                          omega
                      have hmidget : (hs.set i ⟨0, h1.is_array, h1.array_size⟩)[i]? =
                          some ⟨0, h1.is_array, h1.array_size⟩ :=
                        List.getElem?_set_self (by simpa using hilt)
                      have hsetset : (hs.set i ⟨0, h1.is_array, h1.array_size⟩).set i h2 =
                          hs.set i h2 := List.set_set ..
                      have hcS2 : ∀ b : Int, b ≠ 0 →
                          countH (hs.set i h2) b =
                          countH (hs.set i ⟨0, h1.is_array, h1.array_size⟩) b +
                            (if h2.addr = b then 1 else 0) := by
                        intro b hb
                        have hce := countH_set h2 b hmidget
                        rw [hsetset] at hce
                        simp only at hce
                        rw [if_neg (show ¬(0 : Int) = b from fun he => hb he.symm)] at hce
                        omega
                      have hhsS2 : ∀ hx ∈ hs.set i h2, hx.addr ≠ 0 →
                          hx.addr = h2.addr ∨
                          ∃ h3 ∈ hs.set i ⟨0, h1.is_array, h1.array_size⟩,
                            h3.addr = hx.addr := by
                        intro hx hhx _
                        rw [← hsetset] at hhx
                        rcases List.mem_or_eq_of_mem_set hhx with hhx | hhx
                        · exact Or.inr ⟨hx, hhx, rfl⟩
                        · rw [hhx]
                          exact Or.inl rfl
                      rcases inc_ptr_inv hrun2 with ⟨h0, hr1⟩ | ⟨h0, ⟨r, hfind⟩, hr1⟩
                      · subst hr1
                        refine inv_handles hmidI (fun b hb => ?_) ?_
                        · rw [hcS2 b hb, h0, if_neg (fun he => hb he.symm)]
                          omega
                        · intro hx hhx hne
                          rcases hhsS2 hx hhx hne with he | he
                          · exact absurd (he.trans h0) hne
                          · exact he
                      · subst hr1
                        exact inv_inc hmidI h0 hfind (fun b hb => hcS2 b hb) hhsS2
  | destroy i =>
      simp only [step] at hstep
      cases hi : hs[i]? with
      | none => rw [hi] at hstep; exact absurd hstep (by simp)
      | some h =>
          simp only [hi, Option.some.injEq] at hstep
          subst hstep
          exact inv_collect (inv_destructor_dec hI hi)

/-- The initial state satisfies the invariant. -/
theorem inv_init : GCInv initState := by
  refine ⟨?_, ?_, ?_, ?_, ?_, ?_, ?_, ?_, ?_, ?_, ?_, ?_⟩ <;> simp [initState, countH]

/-- Every reachable state satisfies the invariant. -/
theorem reachable_inv {ts : Nat} {s : GCState} (h : Reachable ts s) : GCInv s := by
  induction h with
  | init => exact inv_init
  | step hr hpre hstep ih => exact inv_step ih hpre hstep

/-- `shutdown` under a well-formed registry: it always empties the
registry and frees every recorded allocation, in registry order, each
with observed count forced to zero; the underlying `collect` reports
whether anything was freed, i.e. whether the registry was non-empty. -/
theorem shutdown_spec (reg : List PtrDetails)
    (hnd : (reg.map PtrDetails.mem_ptr).Nodup)
    (hnn : ∀ r ∈ reg, r.mem_ptr ≠ 0) :
    shutdown reg =
      ([], reg.map (fun r => (⟨r.mem_ptr, 0, r.is_array⟩ : FreeEvent)),
       !reg.isEmpty) := by
  by_cases h0 : reg.length = 0
  · have hnil : reg = [] := List.eq_nil_of_length_eq_zero h0
    subst hnil
    simp [shutdown]
  · rw [shutdown, if_neg h0]
    have hzmap : (reg.map (fun r => { r with ref_count := 0 })).map PtrDetails.mem_ptr =
        reg.map PtrDetails.mem_ptr := by
      rw [List.map_map]; rfl
    have hznd : ((reg.map (fun r => { r with ref_count := 0 })).map
        PtrDetails.mem_ptr).Nodup := by rw [hzmap]; exact hnd
    rw [collect_spec _ hznd]
    have h1 : (reg.map (fun r => { r with ref_count := 0 })).filter
        (fun r => r.ref_count != 0) = [] := by
      rw [List.filter_eq_nil_iff]
      intro q hq
      rcases List.mem_map.mp hq with ⟨p, -, hpe⟩
      rw [← hpe]
      simp
    have h2 : (reg.map (fun r => { r with ref_count := 0 })).filter sweepable =
        reg.map (fun r => { r with ref_count := 0 }) := by
      rw [List.filter_eq_self]
      intro q hq
      rcases List.mem_map.mp hq with ⟨p, hp, hpe⟩
      rw [← hpe]
      simp only [sweepable]
      simpa using hnn p hp
    rw [h1, h2, List.map_map]
    have h5 : (reg.map (fun r => { r with ref_count := 0 })).isEmpty = reg.isEmpty := by
      cases reg <;> rfl
    refine Prod.ext rfl (Prod.ext ?_ ?_)
    · exact List.map_congr_left fun r _ => rfl
    · rw [h5]

/-- If `g` and `g'` agree on the found record's count, adjusting with
either gives the same list. -/
theorem adjustFirst_congr {reg : List PtrDetails} {a : Int} {r : PtrDetails}
    (hfind : find_ptr_info reg a = some r)
    {g g' : Nat → Nat} (hg : g r.ref_count = g' r.ref_count) :
    adjustFirst reg a g = adjustFirst reg a g' := by
  obtain ⟨hpr, l₁, l₂, hreg, hl₁⟩ := List.find?_eq_some.mp hfind
  have hra : r.mem_ptr = a := by simpa using hpr
  have hl₁' : ∀ q ∈ l₁, q.mem_ptr ≠ a := fun q hq => by simpa using hl₁ q hq
  subst hreg
  rw [adjustFirst_append g hl₁' hra, adjustFirst_append g' hl₁' hra, hg]

/-- Under a duplicate-free registry, the record at address `a` reappears
with its count transformed by `g` after `adjustFirst`. -/
theorem adjustFirst_mem_modified {reg : List PtrDetails} {a : Int} {r : PtrDetails}
    (hnd : (reg.map PtrDetails.mem_ptr).Nodup)
    (hr : r ∈ reg) (hra : r.mem_ptr = a) (g : Nat → Nat) :
    { r with ref_count := g r.ref_count } ∈ adjustFirst reg a g := by
  have hmem : a ∈ reg.map PtrDetails.mem_ptr := by
    rw [← hra]; exact List.mem_map_of_mem _ hr
  obtain ⟨rf, hfind⟩ := find_ptr_info_isSome hmem
  have hrf := find_ptr_info_some hfind
  have heq : rf = r := List.inj_on_of_nodup_map hnd hrf.1 hr (by rw [hrf.2, hra])
  subst heq
  obtain ⟨hra', l₁, l₂, hreg, hl₁, hl₂⟩ := find_ptr_info_decomp hnd hfind
  rw [hreg, adjustFirst_append g hl₁ hra']
  exact List.mem_append_right _ (List.mem_cons_self ..)

/-! ### The claims -/

/-- Claim C1: for every finite sequence of TrackedHandle operations
(default construction, binding from a raw address, copy construction,
assignment from a raw address, assignment from another handle,
destruction) over a single tracked type that respects the API
preconditions, at every point between operations each allocation
record's reference count equals the number of currently-live handles
whose bound address is that record's address. -/
theorem c1_refcount_equals_live_handles {ts : Nat} {s : GCState}
    (h : Reachable ts s) :
    ∀ r ∈ s.registry, r.ref_count = countH s.handles r.mem_ptr :=
  (reachable_inv h).counts

theorem reachable_sW1 : Reachable 0 sW1 :=
  Reachable.step Reachable.init (by simp [PreOk, initState])
    (show step 0 initState (Op.construct 5) = some sW1 from rfl)

theorem c1_refcount_equals_live_handles_witness :
    (⟨1, 5, false, 0⟩ : PtrDetails).ref_count =
      countH sW1.handles (⟨1, 5, false, 0⟩ : PtrDetails).mem_ptr :=
  c1_refcount_equals_live_handles reachable_sW1 ⟨1, 5, false, 0⟩ (by simp [sW1])

/-- Claim C2: over every precondition-respecting run, ending with the
process-exit `shutdown` sweep, every sweep frees an allocation only when
it observes its record's reference count at zero, and each address ever
registered through handle binding is freed exactly once over the whole
run (`List.count _ = 1`), with nothing else ever freed. -/
theorem c2_freed_exactly_once_at_zero {ts : Nat} {s : GCState}
    (h : Reachable ts s) :
    (∀ e ∈ finalFreed s, e.observed_count = 0) ∧
    (∀ a : Int, List.count a ((finalFreed s).map FreeEvent.addr) =
      if a ∈ s.registered then 1 else 0) := by
  have hI := reachable_inv h
  obtain ⟨hs, reg, fr, regd⟩ := s
  have hrnodup : (reg.map PtrDetails.mem_ptr).Nodup := hI.rnodup
  have hrnonnull : ∀ q ∈ reg, q.mem_ptr ≠ 0 := hI.rnonnull
  have hfzero : ∀ e ∈ fr, e.observed_count = 0 := hI.fzero
  have hfnodup : (fr.map FreeEvent.addr).Nodup := hI.fnodup
  have hfdisj : ∀ e ∈ fr, e.addr ∉ reg.map PtrDetails.mem_ptr := hI.fdisj
  have hrsub : ∀ q ∈ reg, q.mem_ptr ∈ regd := hI.rsub
  have hfsub : ∀ e ∈ fr, e.addr ∈ regd := hI.fsub
  have hregsplit : ∀ b ∈ regd,
      b ∈ reg.map PtrDetails.mem_ptr ∨ b ∈ fr.map FreeEvent.addr := hI.regsplit
  have hff : finalFreed ⟨hs, reg, fr, regd⟩ =
      fr ++ reg.map (fun r => (⟨r.mem_ptr, 0, r.is_array⟩ : FreeEvent)) := by
    show fr ++ (shutdown reg).2.1 = _
    rw [shutdown_spec reg hrnodup hrnonnull]
  rw [hff]
  constructor
  · intro e he
    rcases List.mem_append.mp he with he | he
    · exact hfzero e he
    · rcases List.mem_map.mp he with ⟨q, -, hqe⟩
      rw [← hqe]
  · intro a
    rw [List.map_append, List.count_append]
    have hmap2 : (reg.map (fun r => (⟨r.mem_ptr, 0, r.is_array⟩ : FreeEvent))).map
        FreeEvent.addr = reg.map PtrDetails.mem_ptr := by
      rw [List.map_map]; rfl
    rw [hmap2]
    by_cases hin : a ∈ regd
    · rw [if_pos hin]
      rcases hregsplit a hin with hr | hf
      · have hnotfr : a ∉ fr.map FreeEvent.addr := by
          intro hmem
          rcases List.mem_map.mp hmem with ⟨e, he, hee⟩
          exact hfdisj e he (hee ▸ hr)
        rw [List.count_eq_zero_of_not_mem hnotfr,
          List.count_eq_one_of_mem hrnodup hr]
      · have hnotreg : a ∉ reg.map PtrDetails.mem_ptr := by
          rcases List.mem_map.mp hf with ⟨e, he, hee⟩
          exact hee ▸ hfdisj e he
        rw [List.count_eq_zero_of_not_mem hnotreg,
          List.count_eq_one_of_mem hfnodup hf]
    · rw [if_neg hin]
      have hnotfr : a ∉ fr.map FreeEvent.addr := by
        intro hmem
        rcases List.mem_map.mp hmem with ⟨e, he, hee⟩
        exact hin (hee ▸ hfsub e he)
      have hnotreg : a ∉ reg.map PtrDetails.mem_ptr := by
        intro hmem
        rcases List.mem_map.mp hmem with ⟨q, hq, hqe⟩
        exact hin (hqe ▸ hrsub q hq)
      rw [List.count_eq_zero_of_not_mem hnotfr,
        List.count_eq_zero_of_not_mem hnotreg]

theorem c2_freed_exactly_once_at_zero_witness :
    List.count 5 ((finalFreed sW1).map FreeEvent.addr) = 1 := by
  have hc := (c2_freed_exactly_once_at_zero reachable_sW1).2 5
  simpa [sW1] using hc

/-- Claim C3: after `shutdown()` runs, the registry holds zero records,
whatever its prior contents (including records with non-zero counts),
and the single sweep it performs releases every allocation that was
still recorded (array-form or scalar as each record demands). -/
theorem c3_shutdown_empties_registry (reg : List PtrDetails)
    (hnd : (reg.map PtrDetails.mem_ptr).Nodup)
    (hnn : ∀ r ∈ reg, r.mem_ptr ≠ 0) :
    (shutdown reg).1 = [] ∧
    (shutdown reg).2.1 =
      reg.map (fun r => (⟨r.mem_ptr, 0, r.is_array⟩ : FreeEvent)) := by
  rw [shutdown_spec reg hnd hnn]
  exact ⟨rfl, rfl⟩

theorem c3_shutdown_empties_registry_witness :
    (shutdown [⟨3, 9, true, 4⟩]).1 = [] ∧
    (shutdown [⟨3, 9, true, 4⟩]).2.1 = [⟨9, 0, true⟩] := by
  have hc := c3_shutdown_empties_registry [⟨3, 9, true, 4⟩] (by decide) (by decide)
  simpa using hc

/-- Claim C4: `collect()` keeps exactly the records with non-zero count
(in order), frees exactly the zero-count records with real memory —
recording for each the zero observed count and whether the array-form
free was used — restarting its scan after each removal until a full scan
finds nothing, and returns `true` iff at least one allocation was freed
during the call. -/
theorem c4_collect_characterisation (reg : List PtrDetails)
    (hnd : (reg.map PtrDetails.mem_ptr).Nodup) :
    collect reg = (reg.filter (fun r => r.ref_count != 0),
      (reg.filter sweepable).map freeEventOf,
      !(reg.filter sweepable).isEmpty) ∧
    ((collect reg).2.2 = true ↔ (collect reg).2.1 ≠ []) := by
  have hspec := collect_spec reg hnd
  refine ⟨hspec, ?_⟩
  rw [hspec]
  simp [List.isEmpty_iff]

theorem c4_collect_characterisation_witness :
    collect [⟨0, 7, false, 0⟩, ⟨2, 9, true, 3⟩] =
      ([⟨2, 9, true, 3⟩], [⟨7, 0, false⟩], true) :=
  ((c4_collect_characterisation [⟨0, 7, false, 0⟩, ⟨2, 9, true, 3⟩]
    (by decide)).1).trans (by decide)

/-- Claim C5, counterexample: destroying a handle that is bound to
address `5` while the registry holds no record for `5` completes
normally — `step` yields `some` (and the registry stays untouched before
the sweep) — whereas the claim mandates a fatal invariant-breach fault,
which this model renders as `none`.  The destructor (gc_iterator.h lines
354-372) has no `assert` on the lookup result, unlike the assignment
operators. -/
theorem c5_missing_record_no_fault :
    step 0 sC5 (Op.destroy 0) = some ⟨[], [], [], []⟩ := rfl

/-- Claim C5 (amended): destroying a TrackedHandle decrements its bound
address's record only when the handle is bound, the record exists, and
its count is non-zero; it silently leaves every record's count unchanged
when the handle is unbound, when the record is missing (no fatal fault is
raised), or when the record's count is already zero; in every case it
then runs a sweep over the entire registry, not merely over that
handle's own record. -/
theorem c5_destroy_behaviour {ts : Nat} {s : GCState} {i : Nat} {h : GCPointer}
    {s' : GCState} (hi : s.handles[i]? = some h)
    (hstep : step ts s (.destroy i) = some s') :
    (s'.handles = s.handles.eraseIdx i ∧
     s'.registry = (collect (destructor_dec h.addr s.registry)).1 ∧
     s'.freed = s.freed ++ (collect (destructor_dec h.addr s.registry)).2.1 ∧
     s'.registered = s.registered) ∧
    (h.addr = 0 → destructor_dec h.addr s.registry = s.registry) ∧
    (find_ptr_info s.registry h.addr = none →
      destructor_dec h.addr s.registry = s.registry) ∧
    (∀ r, find_ptr_info s.registry h.addr = some r → r.ref_count = 0 →
      destructor_dec h.addr s.registry = s.registry) ∧
    (∀ r, find_ptr_info s.registry h.addr = some r → r.ref_count ≠ 0 → h.addr ≠ 0 →
      destructor_dec h.addr s.registry =
        adjustFirst s.registry h.addr (fun c => c - 1)) := by
  obtain ⟨hs, reg, fr, regd⟩ := s
  simp only [step, hi, Option.some.injEq] at hstep
  subst hstep
  refine ⟨⟨rfl, rfl, rfl, rfl⟩, ?_, ?_, ?_, ?_⟩
  · intro h0
    rw [destructor_dec, if_pos h0]
  · intro hf
    by_cases h0 : h.addr = 0
    · rw [destructor_dec, if_pos h0]
    · rw [destructor_dec, if_neg h0, hf]
  · intro r hf hcnt
    by_cases h0 : h.addr = 0
    · rw [destructor_dec, if_pos h0]
    · rw [destructor_dec, if_neg h0, hf]
      exact if_neg (fun hn => hn hcnt)
  · intro r hf hcnt h0
    have hdd : destructor_dec h.addr reg = adjustFirst reg h.addr decWrap := by
      rw [destructor_dec, if_neg h0, hf]
      exact if_pos hcnt
    rw [hdd]
    exact adjustFirst_congr hf (by rw [decWrap, if_neg hcnt])

theorem c5_destroy_behaviour_witness :
    (⟨[], [], [⟨5, 0, false⟩], [5]⟩ : GCState).handles = sW1.handles.eraseIdx 0 ∧
    (⟨[], [], [⟨5, 0, false⟩], [5]⟩ : GCState).registry =
      (collect (destructor_dec 5 sW1.registry)).1 := by
  have hc := @c5_destroy_behaviour 0 sW1 0 ⟨5, false, 0⟩
    ⟨[], [], [⟨5, 0, false⟩], [5]⟩ rfl rfl
  exact ⟨hc.1.1, hc.1.2.1⟩

/-- Claim C6 (code bug): `Iter::operator[]` (gc_iterator.h lines 90-97)
builds `std::out_of_range("Invalid access")` as a discarded expression
statement instead of throwing it, and returns `ptr_[i]` — relative to
the *current* position, not `begin_`.  Evaluations: a cursor over
`[10, 12)` positioned at `10` accepts index `5` and hands back the cell
at `15`, far past the end, where the claim (and the function's own
comment) demands an out-of-range error; a cursor positioned at `11`
yields the cell at `11` for index `0` where begin-relative access would
yield `10`. -/
theorem c6_cursor_index_unchecked :
    Iter.index (Iter.mk' 10 10 12) 5 = Except.ok 15 ∧
    Iter.index (Iter.mk' 11 10 12) 0 = Except.ok 11 :=
  ⟨rfl, rfl⟩

/-- Claim C7: for an array-bound handle, indexing at any
`index ≥ array_length` (in particular `index = array_length`) raises
out-of-range and any `index < array_length` succeeds with the element at
that offset; for a non-array handle every index behaves exactly like
index `0` and yields the sole element. -/
theorem c7_handle_index (h : GCPointer) (i : Nat) :
    (h.is_array = true → h.array_size ≤ i →
      h.index i = Except.error (CppExc.out_of_range "Invalid index")) ∧
    (h.is_array = true → i < h.array_size →
      h.index i = Except.ok (h.addr + i)) ∧
    (h.is_array = false → h.index i = h.index 0 ∧ h.index i = Except.ok h.addr) := by
  refine ⟨?_, ?_, ?_⟩
  · intro ha hle
    rw [GCPointer.index, if_pos ha, if_pos hle]
  · intro ha hlt
    rw [GCPointer.index, if_pos ha, if_neg (by omega)]
  · intro ha
    constructor <;> simp [GCPointer.index, ha]

theorem c7_handle_index_witness :
    GCPointer.index ⟨100, true, 3⟩ 3 =
      Except.error (CppExc.out_of_range "Invalid index") ∧
    GCPointer.index ⟨100, true, 3⟩ 2 = Except.ok 102 ∧
    GCPointer.index ⟨7, false, 4⟩ 42 = GCPointer.index ⟨7, false, 4⟩ 0 := by
  refine ⟨(c7_handle_index ⟨100, true, 3⟩ 3).1 rfl (by decide), ?_,
    ((c7_handle_index ⟨7, false, 4⟩ 42).2.2 rfl).1⟩
  have hc := (c7_handle_index ⟨100, true, 3⟩ 2).2.1 rfl (by decide)
  simpa using hc

theorem inc_iterate (it : Iter) (k : Nat) :
    Iter.inc^[k] it = { it with ptr_ := it.ptr_ + k } := by
  induction k with
  | zero => simp
  | succ k ih =>
      rw [Function.iterate_succ_apply', ih]
      simp only [Iter.inc, Iter.mk.injEq, and_true, true_and]
      push_cast
      ring

/-- Claim C9: over the length-N range of a handle (`N = array_length`
for arrays, `1` otherwise), the cursor from `begin()` stays
dereferenceable through the first `N - 1` prefix advances (position
`begin + k` for every `k < N`), and the Nth advance lands exactly on the
`end()` cursor, whose dereference raises out-of-range. -/
theorem c9_cursor_traversal (h : GCPointer) (_hN : 0 < h.lsize) :
    (∀ k : Nat, k < h.lsize →
      (Iter.inc^[k] h.beginIter).deref = Except.ok (h.addr + k)) ∧
    Iter.inc^[h.lsize] h.beginIter = h.endIter ∧
    (Iter.inc^[h.lsize] h.beginIter).deref =
      Except.error (CppExc.out_of_range "Invalid access") := by
  refine ⟨?_, ?_, ?_⟩
  · intro k hk
    rw [inc_iterate]
    simp only [GCPointer.beginIter, Iter.mk', Iter.deref]
    rw [if_neg (by omega)]
  · rw [inc_iterate]
    simp [GCPointer.beginIter, GCPointer.endIter, Iter.mk']
  · rw [inc_iterate]
    simp only [GCPointer.beginIter, Iter.mk', Iter.deref]
    rw [if_pos (by omega)]

theorem c9_cursor_traversal_witness :
    (Iter.inc^[1] (GCPointer.beginIter ⟨100, true, 2⟩)).deref = Except.ok 101 ∧
    (Iter.inc^[2] (GCPointer.beginIter ⟨100, true, 2⟩)).deref =
      Except.error (CppExc.out_of_range "Invalid access") := by
  have h1 := (c9_cursor_traversal ⟨100, true, 2⟩ (by decide)).1 1 (by decide)
  have h3 := (c9_cursor_traversal ⟨100, true, 2⟩ (by decide)).2.2
  constructor
  · simpa using h1
  · simpa using h3

/-- Claim C10: the cursor's signed-offset operators mutate the cursor
they are applied to and return that same mutated cursor — `c + n` moves
`c`'s own position forward by `n`, `c - n` moves it back by `n`, the
pre-call position is not preserved whenever `n ≠ 0`, the range fields
are untouched, and (as the operations are total, with no bounds test in
the source) no position, however far outside `[begin_, end_)`, raises an
error. -/
theorem c10_offset_mutates_receiver (it : Iter) (n : Int) :
    ((it.plusInt n).1 = (it.plusInt n).2 ∧
     (it.plusInt n).1.ptr_ = it.ptr_ + n ∧
     (it.plusInt n).1.begin_ = it.begin_ ∧ (it.plusInt n).1.end_ = it.end_ ∧
     (n ≠ 0 → (it.plusInt n).1.ptr_ ≠ it.ptr_)) ∧
    ((it.minusInt n).1 = (it.minusInt n).2 ∧
     (it.minusInt n).1.ptr_ = it.ptr_ - n ∧
     (it.minusInt n).1.begin_ = it.begin_ ∧ (it.minusInt n).1.end_ = it.end_ ∧
     (n ≠ 0 → (it.minusInt n).1.ptr_ ≠ it.ptr_)) := by
  refine ⟨⟨rfl, rfl, rfl, rfl, ?_⟩, ⟨rfl, rfl, rfl, rfl, ?_⟩⟩ <;>
    intro hn <;> simp [Iter.plusInt, Iter.minusInt] <;> omega

theorem c10_offset_mutates_receiver_witness :
    (Iter.plusInt (Iter.mk' 10 10 12) 100).1.ptr_ = 110 ∧
    (Iter.plusInt (Iter.mk' 10 10 12) 100).1.ptr_ ≠ 10 := by
  have hc := c10_offset_mutates_receiver (Iter.mk' 10 10 12) 100
  exact ⟨by simpa using hc.1.2.1, by simpa using hc.1.2.2.2.2 (by decide)⟩

/-- Claim C8: assignment to a handle — from a raw address or from
another handle — never frees an allocation and never removes a registry
record: the free trace is untouched, every record present before is
still present afterwards with its address and array metadata intact (at
most one fresh record for the new binding is appended), records of
third-party addresses keep their exact state, the old binding's record
is decremented (surviving even when the count thereby reaches zero), and
the new binding's record is incremented or freshly inserted. -/
theorem c8_assignment_never_frees (ts : Nat) :
    (∀ (s s' : GCState) (i : Nat) (mem : Int) (h : GCPointer),
      s.handles[i]? = some h →
      (s.registry.map PtrDetails.mem_ptr).Nodup →
      step ts s (.assignRaw i mem) = some s' →
      s'.freed = s.freed ∧
      (s'.registry.map (fun r => (r.mem_ptr, r.is_array, r.array_size)) =
          s.registry.map (fun r => (r.mem_ptr, r.is_array, r.array_size)) ∨
        ∃ sz : Nat, s'.registry.map (fun r => (r.mem_ptr, r.is_array, r.array_size)) =
          s.registry.map (fun r => (r.mem_ptr, r.is_array, r.array_size)) ++
            [(mem, sz != 0, sz)]) ∧
      (∀ r ∈ s.registry, r.mem_ptr ≠ h.addr → r.mem_ptr ≠ mem → r ∈ s'.registry) ∧
      (h.addr ≠ 0 → h.addr ≠ mem → ∀ r ∈ s.registry, r.mem_ptr = h.addr →
        { r with ref_count := decWrap r.ref_count } ∈ s'.registry) ∧
      (mem ≠ 0 → mem ≠ h.addr → ∀ r ∈ s.registry, r.mem_ptr = mem →
        { r with ref_count := r.ref_count + 1 } ∈ s'.registry)) ∧
    (∀ (s s' : GCState) (i j : Nat) (h1 h2 : GCPointer),
      s.handles[i]? = some h1 → s.handles[j]? = some h2 →
      (s.registry.map PtrDetails.mem_ptr).Nodup →
      step ts s (.assignPtr i j) = some s' →
      s'.freed = s.freed ∧
      s'.registry.map (fun r => (r.mem_ptr, r.is_array, r.array_size)) =
        s.registry.map (fun r => (r.mem_ptr, r.is_array, r.array_size)) ∧
      (∀ r ∈ s.registry, r.mem_ptr ≠ h1.addr → r.mem_ptr ≠ h2.addr →
        r ∈ s'.registry) ∧
      (h1.addr ≠ 0 → h1.addr ≠ h2.addr → ∀ r ∈ s.registry, r.mem_ptr = h1.addr →
        { r with ref_count := decWrap r.ref_count } ∈ s'.registry) ∧
      (h2.addr ≠ 0 → h2.addr ≠ h1.addr → ∀ r ∈ s.registry, r.mem_ptr = h2.addr →
        { r with ref_count := r.ref_count + 1 } ∈ s'.registry)) := by
  constructor
  · intro s s' i mem h hi hnd hstep
    obtain ⟨hs, reg, fr, regd⟩ := s
    simp only [step, hi] at hstep
    cases hrun1 : assign_decrement h.addr reg with
    | none => rw [hrun1] at hstep; exact absurd hstep (by simp)
    | some reg1 =>
        simp only [hrun1] at hstep
        cases hrun2 : increment_or_add_to_ptr_list
            ⟨mem, if ts != 0 then true else h.is_array,
              if ts != 0 then ts else h.array_size⟩ reg1 regd with
        | none => rw [hrun2] at hstep; exact absurd hstep (by simp)
        | some p =>
            obtain ⟨reg2, regd'⟩ := p
            simp only [hrun2, Option.some.injEq] at hstep
            subst hstep
            have hmap1 : reg1.map PtrDetails.mem_ptr = reg.map PtrDetails.mem_ptr := by
              rcases assign_dec_inv hrun1 with ⟨-, hr⟩ | ⟨-, -, hr⟩
              · rw [hr]
              · rw [hr, adjustFirst_map_mem]
            have hmeta1 : reg1.map (fun r => (r.mem_ptr, r.is_array, r.array_size)) =
                reg.map (fun r => (r.mem_ptr, r.is_array, r.array_size)) := by
              rcases assign_dec_inv hrun1 with ⟨-, hr⟩ | ⟨-, -, hr⟩
              · rw [hr]
              · rw [hr, adjustFirst_map_meta]
            have hnd1 : (reg1.map PtrDetails.mem_ptr).Nodup := by
              rw [hmap1]; exact hnd
            have hmem1 : ∀ q ∈ reg, q.mem_ptr ≠ h.addr → q ∈ reg1 := by
              intro q hq hne
              rcases assign_dec_inv hrun1 with ⟨-, hr⟩ | ⟨-, -, hr⟩
              · rw [hr]; exact hq
              · rw [hr]; exact mem_adjustFirst_of_ne hq hne
            have hmem2 : ∀ q ∈ reg1, q.mem_ptr ≠ mem → q ∈ reg2 := by
              intro q hq hne
              rcases inc_or_add_inv hrun2 with ⟨-, hr, -⟩ | ⟨-, -, hr, -⟩ | ⟨-, -, hr, -⟩
              · rw [hr]; exact hq
              · rw [hr]; exact mem_adjustFirst_of_ne hq hne
              · rw [hr]; exact List.mem_append_left _ hq
            refine ⟨rfl, ?_, ?_, ?_, ?_⟩
            · rcases inc_or_add_inv hrun2 with ⟨-, hr, -⟩ | ⟨-, -, hr, -⟩ | ⟨-, -, hr, -⟩
              · left; rw [hr, hmeta1]
              · left; rw [hr, adjustFirst_map_meta, hmeta1]
              · right
                refine ⟨if ts != 0 then ts else h.array_size, ?_⟩
                rw [hr, List.map_append, hmeta1]
                simp [mkPtrDetails]
            · intro r hr hne1 hne2
              exact hmem2 r (hmem1 r hr hne1) hne2
            · intro ha0 hne r hr hra
              have hq1 : { r with ref_count := decWrap r.ref_count } ∈ reg1 := by
                rcases assign_dec_inv hrun1 with ⟨he, -⟩ | ⟨-, -, hradj⟩
                · exact absurd he ha0
                · rw [hradj]
                  exact adjustFirst_mem_modified hnd hr hra decWrap
              exact hmem2 _ hq1 (fun he => hne (hra ▸ he))
            · intro hm0 hne r hr hra
              have hq1 : r ∈ reg1 := hmem1 r hr (fun he => hne (hra.symm.trans he))
              rcases inc_or_add_inv hrun2 with ⟨he, -, -⟩ | ⟨-, -, hradj, -⟩ |
                ⟨-, hnone, -, -⟩
              · exact absurd he hm0
              · rw [hradj]
                exact adjustFirst_mem_modified hnd1 hq1 hra (fun c => c + 1)
              · exact absurd hra (find_ptr_info_none hnone r hq1)
  · intro s s' i j h1 h2 hi hj hnd hstep
    obtain ⟨hs, reg, fr, regd⟩ := s
    simp only [step, hi, hj] at hstep
    cases hrun1 : assign_decrement h1.addr reg with
    | none => rw [hrun1] at hstep; exact absurd hstep (by simp)
    | some reg1 =>
        simp only [hrun1] at hstep
        cases hrun2 : increment_ptr_list h2 reg1 with
        | none => rw [hrun2] at hstep; exact absurd hstep (by simp)
        | some reg2 =>
            simp only [hrun2, Option.some.injEq] at hstep
            subst hstep
            have hmap1 : reg1.map PtrDetails.mem_ptr = reg.map PtrDetails.mem_ptr := by
              rcases assign_dec_inv hrun1 with ⟨-, hr⟩ | ⟨-, -, hr⟩
              · rw [hr]
              · rw [hr, adjustFirst_map_mem]
            have hmeta1 : reg1.map (fun r => (r.mem_ptr, r.is_array, r.array_size)) =
                reg.map (fun r => (r.mem_ptr, r.is_array, r.array_size)) := by
              rcases assign_dec_inv hrun1 with ⟨-, hr⟩ | ⟨-, -, hr⟩
              · rw [hr]
              · rw [hr, adjustFirst_map_meta]
            have hnd1 : (reg1.map PtrDetails.mem_ptr).Nodup := by
              rw [hmap1]; exact hnd
            have hmem1 : ∀ q ∈ reg, q.mem_ptr ≠ h1.addr → q ∈ reg1 := by
              intro q hq hne
              rcases assign_dec_inv hrun1 with ⟨-, hr⟩ | ⟨-, -, hr⟩
              · rw [hr]; exact hq
              · rw [hr]; exact mem_adjustFirst_of_ne hq hne
            have hmem2 : ∀ q ∈ reg1, q.mem_ptr ≠ h2.addr → q ∈ reg2 := by
              intro q hq hne
              rcases inc_ptr_inv hrun2 with ⟨-, hr⟩ | ⟨-, -, hr⟩
              · rw [hr]; exact hq
              · rw [hr]; exact mem_adjustFirst_of_ne hq hne
            refine ⟨rfl, ?_, ?_, ?_, ?_⟩
            · rcases inc_ptr_inv hrun2 with ⟨-, hr⟩ | ⟨-, -, hr⟩
              · rw [hr, hmeta1]
              · rw [hr, adjustFirst_map_meta, hmeta1]
            · intro r hr hne1 hne2
              exact hmem2 r (hmem1 r hr hne1) hne2
            · intro ha0 hne r hr hra
              have hq1 : { r with ref_count := decWrap r.ref_count } ∈ reg1 := by
                rcases assign_dec_inv hrun1 with ⟨he, -⟩ | ⟨-, -, hradj⟩
                · exact absurd he ha0
                · rw [hradj]
                  exact adjustFirst_mem_modified hnd hr hra decWrap
              exact hmem2 _ hq1 (fun he => hne (hra ▸ he))
            · intro hm0 hne r hr hra
              have hq1 : r ∈ reg1 := hmem1 r hr (fun he => hne (hra.symm.trans he))
              rcases inc_ptr_inv hrun2 with ⟨he, -⟩ | ⟨-, -, hradj⟩
              · exact absurd he hm0
              · rw [hradj]
                exact adjustFirst_mem_modified hnd1 hq1 hra (fun c => c + 1)

theorem c8_assignment_never_frees_witness :
    (⟨[⟨7, false, 0⟩], [⟨0, 5, false, 0⟩, ⟨1, 7, false, 0⟩], [], [5, 7]⟩ :
      GCState).freed = sW1.freed ∧
    ({ (⟨1, 5, false, 0⟩ : PtrDetails) with ref_count := decWrap 1 } ∈
      (⟨[⟨7, false, 0⟩], [⟨0, 5, false, 0⟩, ⟨1, 7, false, 0⟩], [], [5, 7]⟩ :
        GCState).registry) := by
  have hc := (c8_assignment_never_frees 0).1 sW1
    ⟨[⟨7, false, 0⟩], [⟨0, 5, false, 0⟩, ⟨1, 7, false, 0⟩], [], [5, 7]⟩
    0 7 ⟨5, false, 0⟩ rfl (by decide) rfl
  exact ⟨hc.1, hc.2.2.2.1 (by decide) (by decide) ⟨1, 5, false, 0⟩
    (by simp [sW1]) rfl⟩
